import Mathlib

/-!
# Verification of the sizegraph repository's core algorithms

Shallow embedding of the two source files of the repository:

* `src/sizegraph.py` ("v1"): a Tk application whose core is a queue-based
  breadth-first directory scanner (`process_scan_queue`), a recursive
  bottom-up size aggregation (`recalculate_dir_size`), and a squarified
  treemap layout (`worst_ratio`, `layout_row`, `layout_treemap`,
  `draw_graph`, `draw_rectangle`).

* `src/sizegraphv2.py` ("v2"): a Qt application whose core is a recursive
  scanner (`traverse_directory`, which aggregates sizes as it goes),
  `calculate_percentages`, and a proportional slice layout
  (`_draw_item` / `_layout_children`).

Python floats are modelled as exact rationals (`ℚ`); a float division
`a / b` is `a / b` on `ℚ` (and a dedicated `Option`-valued checked
division is used where a claim is about `ZeroDivisionError`).  The
filesystem, which the code reads through `os` / `pathlib`, is modelled as
an inductive value: each entry is a file with an optional stat size
(`none` = `stat` raises `OSError`/`PermissionError`) or a directory with
an optional entry list (`none` = listing the directory raises).
-/

/-- The `FileInfo` dataclass shared by both source files: `path`, `size`,
`is_dir`, `children`, and (v2 only) `percentage`, defaulting to `0.0`.
v1's dataclass lacks the `percentage` field; its functions never touch it.
The v2 `parent` back-reference is a non-owning pointer used only by the
excluded UI colour code, so it is not part of the embedded state. -/
inductive FileInfo : Type where
  | mk (path : String) (size : ℚ) (is_dir : Bool) (children : List FileInfo)
      (percentage : ℚ)

/-- Field accessor: `path`. -/
def FileInfo.path : FileInfo → String
  | .mk p _ _ _ _ => p

/-- Field accessor: `size`. -/
def FileInfo.size : FileInfo → ℚ
  | .mk _ s _ _ _ => s

/-- Field accessor: `is_dir`. -/
def FileInfo.is_dir : FileInfo → Bool
  | .mk _ _ d _ _ => d

/-- Field accessor: `children`. -/
def FileInfo.children : FileInfo → List FileInfo
  | .mk _ _ _ cs _ => cs

/-- Field accessor: `percentage`. -/
def FileInfo.percentage : FileInfo → ℚ
  | .mk _ _ _ _ pc => pc

mutual

/-- Boolean structural equality on `FileInfo` (hand-rolled because the
nested `List` field defeats automatic derivation). -/
def FileInfo.beq : FileInfo → FileInfo → Bool
  | .mk p s d cs pc, .mk p' s' d' cs' pc' =>
    decide (p = p') && decide (s = s') && decide (d = d') &&
      FileInfo.beqList cs cs' && decide (pc = pc')

/-- `FileInfo.beq` on lists, pointwise. -/
def FileInfo.beqList : List FileInfo → List FileInfo → Bool
  | [], [] => true
  | c :: cs, c' :: cs' => FileInfo.beq c c' && FileInfo.beqList cs cs'
  | _, _ => false

end

mutual

theorem FileInfo.beq_iff_eq : ∀ a b : FileInfo, FileInfo.beq a b = true ↔ a = b
  | .mk p s d cs pc, .mk p' s' d' cs' pc' => by
    simp only [FileInfo.beq, Bool.and_eq_true, decide_eq_true_eq,
      FileInfo.mk.injEq]
    rw [FileInfo.beqList_iff_eq cs cs']
    tauto

theorem FileInfo.beqList_iff_eq :
    ∀ a b : List FileInfo, FileInfo.beqList a b = true ↔ a = b
  | [], [] => by simp [FileInfo.beqList]
  | [], _ :: _ => by simp [FileInfo.beqList]
  | _ :: _, [] => by simp [FileInfo.beqList]
  | c :: cs, c' :: cs' => by
    simp only [FileInfo.beqList, Bool.and_eq_true, List.cons.injEq]
    rw [FileInfo.beq_iff_eq c c', FileInfo.beqList_iff_eq cs cs']

end

instance : DecidableEq FileInfo := fun a b =>
  decidable_of_iff (FileInfo.beq a b = true) (FileInfo.beq_iff_eq a b)

/-- `sum(item.size for item in items)` — used throughout both files. -/
def sumSizes : List FileInfo → ℚ
  | [] => 0
  | it :: rest => it.size + sumSizes rest

/-- The filesystem as seen by the scanners.  A file carries the result of
`stat` (`none` when `stat` raises a `PermissionError`/`OSError`); a
directory carries the result of listing it (`none` when `iterdir` /
`os.scandir` raises). Stat sizes are the non-negative byte counts the OS
reports. -/
inductive FS : Type where
  | file (name : String) (statSize : Option ℕ)
  | dir (name : String) (entries : Option (List FS))

mutual

/-- v2 `traverse_directory` (src/sizegraphv2.py lines 24-58), for one
filesystem entry.  A file whose `stat` raises is returned as a size-0
node (line 45); a directory whose `os.scandir` raises keeps size 0 and no
children (lines 55-56); otherwise a directory's children are traversed
recursively and its size set to the sum of the children's sizes
(lines 53-54).  `percentage` starts at its dataclass default `0.0`. -/
def traverse_directory : FS → FileInfo
  | .file n st =>
    match st with
    | some sz => .mk n (sz : ℚ) false [] 0
    | none => .mk n 0 false [] 0
  | .dir n es =>
    match es with
    | some l => .mk n (sumSizes (traverseList l)) true (traverseList l) 0
    | none => .mk n 0 true [] 0

/-- The list comprehension `[traverse_directory(entry.path, ...) for entry
in entries]` of src/sizegraphv2.py line 53. -/
def traverseList : List FS → List FileInfo
  | [] => []
  | e :: es => traverse_directory e :: traverseList es

end

mutual

/-- The files recorded for one directory's entry list by v1
`process_scan_queue` (src/sizegraph.py lines 150-166): a regular file is
appended to `children` with its stat size; a file for which the
`is_file()`/`stat()` call raises is only logged (line 165-166) and never
appended; directory entries are queued, not appended here. -/
def filesOf : List FS → List FileInfo
  | [] => []
  | .file n (some sz) :: es => .mk n (sz : ℚ) false [] 0 :: filesOf es
  | .file _ none :: es => filesOf es
  | .dir _ _ :: es => filesOf es

/-- The directory nodes appended to one parent's `children` by v1's scan
queue, in queue order.  Because the queue is FIFO and each dequeued
directory appends its own node to its parent's list (src/sizegraph.py
lines 163-164 and 170-174), every parent ends up with its files first (in
listing order) and then its subdirectories (in listing order), each
subdirectory scanned the same way. -/
def dirsOf : List FS → List FileInfo
  | [] => []
  | .file _ _ :: es => dirsOf es
  | .dir n sub :: es => scanV1dir n sub :: dirsOf es

/-- The tree v1 `process_scan_queue` builds for one directory: size 0
(line 171: "Size will be calculated at the end"), and children as
described at `filesOf`/`dirsOf`.  A directory whose `iterdir` raises is
still recorded, with no children (lines 167-168). -/
def scanV1dir (name : String) (entries : Option (List FS)) : FileInfo :=
  match entries with
  | none => .mk name 0 true [] 0
  | some l => .mk name 0 true (filesOf l ++ dirsOf l) 0

end

mutual

/-- v1 `recalculate_dir_size` (src/sizegraph.py lines 135-140), in
state-passing form: a file is returned unchanged (`return item.size`
without mutation); a directory's children are recalculated recursively
and its `size` set to the sum of their (new) sizes. -/
def recalculate_dir_size : FileInfo → FileInfo
  | .mk p s d cs pct =>
    if d then .mk p (sumSizes (recalcList cs)) d (recalcList cs) pct
    else .mk p s d cs pct

/-- `sum(recalculate_dir_size(child) for child in item.children)`'s
traversal of the children (src/sizegraph.py line 138). -/
def recalcList : List FileInfo → List FileInfo
  | [] => []
  | c :: cs => recalculate_dir_size c :: recalcList cs

end

mutual

/-- v2 `_calc_percentage` (src/sizegraphv2.py lines 79-88), in
state-passing form: sets `node.percentage` to `node.size / total * 100`
when `total > 0` and to `0.0` otherwise, then recurses into the children
— but only when `node.is_dir` (line 86). -/
def calc_percentage (total : ℚ) : FileInfo → FileInfo
  | .mk p s d cs _ =>
    if d then .mk p s d (calcPctList total cs)
      (if total > 0 then s / total * 100 else 0)
    else .mk p s d cs (if total > 0 then s / total * 100 else 0)

/-- The `for child in node.children: _calc_percentage(child)` loop of
src/sizegraphv2.py lines 87-88. -/
def calcPctList (total : ℚ) : List FileInfo → List FileInfo
  | [] => []
  | c :: cs => calc_percentage total c :: calcPctList total cs

end

/-- v2 `calculate_percentages` (src/sizegraphv2.py lines 76-94):
`total_size = root.size` is read once and passed to `_calc_percentage`
for every node.  (The `FileInfo.percentage = field(default=0.0)` line 91
patches a class attribute and does not change any instance, so it has no
counterpart here.) -/
def calculate_percentages (root : FileInfo) : FileInfo :=
  calc_percentage root.size root

mutual

/-- Decides the aggregation invariant: every directory node's `size`
equals the sum of its children's sizes, recursively at every level. -/
def aggOk : FileInfo → Bool
  | .mk _ s d cs _ => (!d || (s == sumSizes cs)) && aggOkList cs

/-- `aggOk` over a list of sibling trees. -/
def aggOkList : List FileInfo → Bool
  | [] => true
  | c :: cs => aggOk c && aggOkList cs

end

mutual

/-- Decides that every node's size is non-negative, as stat sizes are. -/
def sizesNonneg : FileInfo → Bool
  | .mk _ s _ cs _ => (0 ≤ s : Bool) && sizesNonnegList cs

/-- `sizesNonneg` over a list of sibling trees. -/
def sizesNonnegList : List FileInfo → Bool
  | [] => true
  | c :: cs => sizesNonneg c && sizesNonnegList cs

end

mutual

/-- Decides that the tree is shaped like a scanned tree: non-directory
nodes have no children. -/
def wellFormed : FileInfo → Bool
  | .mk _ _ d cs _ => (d || cs.isEmpty) && wellFormedList cs

/-- `wellFormed` over a list of sibling trees. -/
def wellFormedList : List FileInfo → Bool
  | [] => true
  | c :: cs => wellFormed c && wellFormedList cs

end

mutual

/-- All nodes of a tree (the node itself and, recursively, the nodes of
its children), in depth-first order. -/
def allNodes : FileInfo → List FileInfo
  | .mk p s d cs pct => .mk p s d cs pct :: allNodesList cs

/-- `allNodes` over a list of sibling trees. -/
def allNodesList : List FileInfo → List FileInfo
  | [] => []
  | c :: cs => allNodes c ++ allNodesList cs

end

mutual

/-- The `(path, size)` pairs of the non-directory (file leaf) nodes of a
tree, in depth-first order — the observation that the aggregation pass
must leave untouched. -/
def leafSizes : FileInfo → List (String × ℚ)
  | .mk p s d cs _ => (if d then [] else [(p, s)]) ++ leafSizesList cs

/-- `leafSizes` over a list of sibling trees. -/
def leafSizesList : List FileInfo → List (String × ℚ)
  | [] => []
  | c :: cs => leafSizes c ++ leafSizesList cs

end

mutual

/-- Erases every node's `percentage` field (sets it to 0), keeping
`path`, `size`, `is_dir` and the whole `children` structure: two trees
have equal `stripPct` images iff they agree on everything but
percentages. -/
def stripPct : FileInfo → FileInfo
  | .mk p s d cs _ => .mk p s d (stripPctList cs) 0

/-- `stripPct` over a list of sibling trees. -/
def stripPctList : List FileInfo → List FileInfo
  | [] => []
  | c :: cs => stripPct c :: stripPctList cs

end

mutual

/-- Erases every directory node's `size` (sets it to 0) while keeping
file sizes, paths, flags, percentages and the `children` structure: two
trees have equal `stripDirSizes` images iff they agree on everything
except directory sizes. -/
def stripDirSizes : FileInfo → FileInfo
  | .mk p s d cs pct => .mk p (if d then 0 else s) d (stripDirSizesList cs) pct

/-- `stripDirSizes` over a list of sibling trees. -/
def stripDirSizesList : List FileInfo → List FileInfo
  | [] => []
  | c :: cs => stripDirSizes c :: stripDirSizesList cs

end

theorem wellFormedList_append (a b : List FileInfo) :
    wellFormedList (a ++ b) = (wellFormedList a && wellFormedList b) := by
  induction a with
  | nil => simp [wellFormedList]
  | cons c cs ih => simp [wellFormedList, ih, Bool.and_assoc]

mutual

theorem recalc_aggOk :
    ∀ t : FileInfo, wellFormed t = true →
      aggOk (recalculate_dir_size t) = true
  | .mk p s d cs pct, h => by
    cases d with
    | true =>
      have hl : wellFormedList cs = true := by simpa [wellFormed] using h
      simp [recalculate_dir_size, aggOk, recalcList_aggOk cs hl]
    | false =>
      have hcs : cs = [] := by
        simp [wellFormed] at h
        exact h.1
      subst hcs
      simp [recalculate_dir_size, aggOk, aggOkList]

theorem recalcList_aggOk :
    ∀ l : List FileInfo, wellFormedList l = true →
      aggOkList (recalcList l) = true
  | [], _ => by simp [recalcList, aggOkList]
  | c :: cs, h => by
    have h' : wellFormed c = true ∧ wellFormedList cs = true := by
      simpa [wellFormedList] using h
    simp [recalcList, aggOkList, recalc_aggOk c h'.1, recalcList_aggOk cs h'.2]

end

mutual

theorem recalc_leafSizes :
    ∀ t : FileInfo, leafSizes (recalculate_dir_size t) = leafSizes t
  | .mk p s d cs pct => by
    cases d with
    | true => simp [recalculate_dir_size, leafSizes, recalcList_leafSizes cs]
    | false => simp [recalculate_dir_size]

theorem recalcList_leafSizes :
    ∀ l : List FileInfo, leafSizesList (recalcList l) = leafSizesList l
  | [] => by simp [recalcList]
  | c :: cs => by
    simp [recalcList, leafSizesList, recalc_leafSizes c, recalcList_leafSizes cs]

end

mutual

theorem traverse_aggOk : ∀ e : FS, aggOk (traverse_directory e) = true
  | .file n st => by
    cases st <;> simp [traverse_directory, aggOk, aggOkList, sumSizes]
  | .dir n es => by
    cases es with
    | none => simp [traverse_directory, aggOk, aggOkList, sumSizes]
    | some l => simp [traverse_directory, aggOk, traverseList_aggOk l]

theorem traverseList_aggOk : ∀ l : List FS, aggOkList (traverseList l) = true
  | [] => by simp [traverseList, aggOkList]
  | e :: es => by
    simp [traverseList, aggOkList, traverse_aggOk e, traverseList_aggOk es]

end

mutual

theorem scanV1dir_wf :
    ∀ (n : String) (es : Option (List FS)), wellFormed (scanV1dir n es) = true
  | n, none => by simp [scanV1dir, wellFormed, wellFormedList]
  | n, some l => by
    simp [scanV1dir, wellFormed, wellFormedList_append, filesOf_wf l,
      dirsOf_wf l]

theorem filesOf_wf : ∀ l : List FS, wellFormedList (filesOf l) = true
  | [] => by simp [filesOf, wellFormedList]
  | .file n (some sz) :: es => by
    simp [filesOf, wellFormedList, wellFormed, wellFormedList_append,
      filesOf_wf es]
  | .file _ none :: es => by simp [filesOf, filesOf_wf es]
  | .dir _ _ :: es => by simp [filesOf, filesOf_wf es]

theorem dirsOf_wf : ∀ l : List FS, wellFormedList (dirsOf l) = true
  | [] => by simp [dirsOf, wellFormedList]
  | .file _ _ :: es => by simp [dirsOf, dirsOf_wf es]
  | .dir n sub :: es => by
    simp [dirsOf, wellFormedList, scanV1dir_wf n sub, dirsOf_wf es]

end

/-- C1: for every scanned tree (every filesystem value, through either
scanner), after the aggregation pass every directory node's size is the
sum of its children's sizes at every level, and the aggregation leaves
the file leaves' `(path, size)` pairs exactly as scanned.  In v1 the
aggregation pass is `recalculate_dir_size`, run on the finished scan
queue's tree; in v2 `traverse_directory` aggregates as it returns. -/
theorem C1_aggregation_invariant (n : String) (es : Option (List FS)) (e : FS) :
    aggOk (recalculate_dir_size (scanV1dir n es)) = true ∧
    leafSizes (recalculate_dir_size (scanV1dir n es)) = leafSizes (scanV1dir n es) ∧
    aggOk (traverse_directory e) = true :=
  ⟨recalc_aggOk _ (scanV1dir_wf n es), recalc_leafSizes _, traverse_aggOk e⟩

mutual

theorem calc_stripPct :
    ∀ (total : ℚ) (t : FileInfo),
      stripPct (calc_percentage total t) = stripPct t
  | total, .mk p s d cs pct => by
    cases d with
    | true => simp [calc_percentage, stripPct, calcPctList_stripPct total cs]
    | false => simp [calc_percentage, stripPct]

theorem calcPctList_stripPct :
    ∀ (total : ℚ) (l : List FileInfo),
      stripPctList (calcPctList total l) = stripPctList l
  | _, [] => by simp [calcPctList]
  | total, c :: cs => by
    simp [calcPctList, stripPctList, calc_stripPct total c,
      calcPctList_stripPct total cs]

end

mutual

theorem recalc_stripDirSizes :
    ∀ t : FileInfo, stripDirSizes (recalculate_dir_size t) = stripDirSizes t
  | .mk p s d cs pct => by
    cases d with
    | true =>
      simp [recalculate_dir_size, stripDirSizes, recalcList_stripDirSizes cs]
    | false => simp [recalculate_dir_size]

theorem recalcList_stripDirSizes :
    ∀ l : List FileInfo,
      stripDirSizesList (recalcList l) = stripDirSizesList l
  | [] => by simp [recalcList]
  | c :: cs => by
    simp [recalcList, stripDirSizesList, recalc_stripDirSizes c,
      recalcList_stripDirSizes cs]

end

/-- C10: the aggregation passes touch only their designated fields.
`calculate_percentages` changes at most `percentage` fields (erasing
percentages from its input and output gives identical trees, so `path`,
`size`, `is_dir` and the whole `children` structure are untouched), and
`recalculate_dir_size` changes at most directory nodes' `size` fields
(erasing directory sizes gives identical trees, so file sizes, paths,
flags, percentages and the `children` structure are untouched). -/
theorem C10_aggregation_frame (t u : FileInfo) :
    stripPct (calculate_percentages t) = stripPct t ∧
    stripDirSizes (recalculate_dir_size u) = stripDirSizes u :=
  ⟨calc_stripPct t.size t, recalc_stripDirSizes u⟩

theorem traverseList_length (l : List FS) :
    (traverseList l).length = l.length := by
  induction l with
  | nil => simp [traverseList]
  | cons e es ih => simp [traverseList, ih]

/-- C4 counterexample: the claim says every directory entry that raises a
permission or I/O error is still recorded in the tree (never silently
dropped).  In v1 `process_scan_queue`, a file entry whose `stat` raises
is only printed and skipped (src/sizegraph.py lines 165-166): scanning a
root with files "a" (10 bytes), "b" (20 bytes) and "bad" (stat raises)
yields a tree whose nodes are exactly root, "a" and "b" — no node for
"bad" exists. -/
theorem C4_counterexample :
    (allNodes (scanV1dir "root"
        (some [.file "a" (some 10), .file "b" (some 20),
          .file "bad" none]))).map FileInfo.path = ["root", "a", "b"] ∧
    "bad" ∉ (allNodes (scanV1dir "root"
        (some [.file "a" (some 10), .file "b" (some 20),
          .file "bad" none]))).map FileInfo.path := by
  constructor
  · simp [scanV1dir, filesOf, dirsOf, allNodes, allNodesList, FileInfo.path]
  · simp [scanV1dir, filesOf, dirsOf, allNodes, allNodesList, FileInfo.path]

/-- C4 as amended: per-entry errors never escape the scan (both scanners
are total functions of the modelled filesystem) and siblings keep being
processed, and the 10/20/unreadable-subdirectory example aggregates to a
root size of 30 in both versions; but only v2 records *every* erroring
entry as a size-0 node (and neither version attaches any "inaccessible"
marker — `FileInfo` has no such field): v1 records an unreadable
directory as a size-0 node with no children, while a v1 file entry whose
`stat` raises is silently dropped (the counterexample). -/
theorem C4_error_handling_amended (name : String) (l : List FS) :
    traverse_directory (.file name none) = .mk name 0 false [] 0 ∧
    traverse_directory (.dir name none) = .mk name 0 true [] 0 ∧
    (traverseList l).length = l.length ∧
    scanV1dir name none = .mk name 0 true [] 0 ∧
    (recalculate_dir_size (scanV1dir "root"
        (some [.file "a" (some 10), .file "b" (some 20),
          .dir "bad" none]))).size = 30 ∧
    (traverse_directory (.dir "root"
        (some [.file "a" (some 10), .file "b" (some 20),
          .dir "bad" none]))).size = 30 ∧
    (allNodes (traverse_directory (.dir "root"
        (some [.file "a" (some 10), .file "b" (some 20),
          .file "bad" none])))).map FileInfo.path
      = ["root", "a", "b", "bad"] := by
  refine ⟨by simp [traverse_directory], by simp [traverse_directory],
    traverseList_length l, by simp [scanV1dir], ?_, ?_, ?_⟩
  · norm_num [scanV1dir, filesOf, dirsOf, recalculate_dir_size, recalcList,
      sumSizes, FileInfo.size]
  · norm_num [traverse_directory, traverseList, sumSizes, FileInfo.size]
  · simp [traverse_directory, traverseList, allNodes, allNodesList,
      FileInfo.path]

theorem sizesNonneg_size {t : FileInfo} (h : sizesNonneg t = true) :
    0 ≤ t.size := by
  cases t with
  | mk p s d cs pct =>
    simp [sizesNonneg] at h
    simpa [FileInfo.size] using h.1

theorem sumSizes_nonneg :
    ∀ l : List FileInfo, sizesNonnegList l = true → 0 ≤ sumSizes l
  | [], _ => by simp [sumSizes]
  | c :: cs, h => by
    have h' : sizesNonneg c = true ∧ sizesNonnegList cs = true := by
      simpa [sizesNonnegList] using h
    have h1 := sizesNonneg_size h'.1
    have h2 := sumSizes_nonneg cs h'.2
    simp only [sumSizes]
    linarith

mutual

theorem calcPct_nodes :
    ∀ (total : ℚ) (t : FileInfo), wellFormed t = true →
      ∀ n ∈ allNodes (calc_percentage total t),
        n.percentage = (if total > 0 then n.size / total * 100 else 0) ∧
        n.size ∈ (allNodes t).map FileInfo.size
  | total, .mk p s d cs pct, hwf, n, hn => by
    cases d with
    | true =>
      have hl : wellFormedList cs = true := by simpa [wellFormed] using hwf
      simp only [calc_percentage, if_true, allNodes] at hn
      rcases List.mem_cons.mp hn with h | h
      · subst h
        exact ⟨by simp [FileInfo.percentage, FileInfo.size],
          by simp [allNodes, FileInfo.size]⟩
      · have hrec := calcPctList_nodes total cs hl n h
        refine ⟨hrec.1, ?_⟩
        simp only [allNodes, List.map_cons]
        exact List.mem_cons_of_mem _ hrec.2
    | false =>
      have hcs : cs = [] := by
        simp [wellFormed] at hwf
        exact hwf.1
      subst hcs
      simp only [calc_percentage, if_false, allNodes, allNodesList,
        Bool.false_eq_true, List.mem_singleton] at hn
      subst hn
      exact ⟨by simp [FileInfo.percentage, FileInfo.size],
        by simp [allNodes, allNodesList, FileInfo.size]⟩

theorem calcPctList_nodes :
    ∀ (total : ℚ) (l : List FileInfo), wellFormedList l = true →
      ∀ n ∈ allNodesList (calcPctList total l),
        n.percentage = (if total > 0 then n.size / total * 100 else 0) ∧
        n.size ∈ (allNodesList l).map FileInfo.size
  | total, [], _, n, hn => by simp [calcPctList, allNodesList] at hn
  | total, c :: cs, hl, n, hn => by
    have h' : wellFormed c = true ∧ wellFormedList cs = true := by
      simpa [wellFormedList] using hl
    simp only [calcPctList, allNodesList] at hn
    rcases List.mem_append.mp hn with h | h
    · have hrec := calcPct_nodes total c h'.1 n h
      refine ⟨hrec.1, ?_⟩
      simp only [allNodesList, List.map_append]
      exact List.mem_append_left _ hrec.2
    · have hrec := calcPctList_nodes total cs h'.2 n h
      refine ⟨hrec.1, ?_⟩
      simp only [allNodesList, List.map_append]
      exact List.mem_append_right _ hrec.2

end

mutual

theorem nodes_size_le :
    ∀ t : FileInfo, wellFormed t = true → sizesNonneg t = true →
      aggOk t = true →
      ∀ v ∈ (allNodes t).map FileInfo.size, 0 ≤ v ∧ v ≤ t.size
  | .mk p s d cs pct, hwf, hnn, hagg, v, hv => by
    have hnl : 0 ≤ s ∧ sizesNonnegList cs = true := by
      simpa [sizesNonneg] using hnn
    cases d with
    | true =>
      have hl : wellFormedList cs = true := by simpa [wellFormed] using hwf
      have hal : s = sumSizes cs ∧ aggOkList cs = true := by
        simpa [aggOk] using hagg
      simp only [allNodes, List.map_cons] at hv
      rcases List.mem_cons.mp hv with h | h
      · subst h
        exact ⟨by simpa [FileInfo.size] using hnl.1, by simp [FileInfo.size]⟩
      · have hrec := nodesList_size_le cs hl hnl.2 hal.2 v h
        refine ⟨hrec.1, ?_⟩
        simp only [FileInfo.size]
        rw [hal.1]
        exact hrec.2
    | false =>
      have hcs : cs = [] := by
        simp [wellFormed] at hwf
        exact hwf.1
      subst hcs
      simp only [allNodes, allNodesList, List.map_cons, List.map_nil,
        List.mem_singleton] at hv
      subst hv
      exact ⟨by simpa [FileInfo.size] using hnl.1, by simp [FileInfo.size]⟩

theorem nodesList_size_le :
    ∀ l : List FileInfo, wellFormedList l = true → sizesNonnegList l = true →
      aggOkList l = true →
      ∀ v ∈ (allNodesList l).map FileInfo.size, 0 ≤ v ∧ v ≤ sumSizes l
  | [], _, _, _, v, hv => by simp [allNodesList] at hv
  | c :: cs, hw, hn, ha, v, hv => by
    have hw' : wellFormed c = true ∧ wellFormedList cs = true := by
      simpa [wellFormedList] using hw
    have hn' : sizesNonneg c = true ∧ sizesNonnegList cs = true := by
      simpa [sizesNonnegList] using hn
    have ha' : aggOk c = true ∧ aggOkList cs = true := by
      simpa [aggOkList] using ha
    simp only [allNodesList, List.map_append] at hv
    rcases List.mem_append.mp hv with h | h
    · have hrec := nodes_size_le c hw'.1 hn'.1 ha'.1 v h
      have hcs := sumSizes_nonneg cs hn'.2
      refine ⟨hrec.1, ?_⟩
      simp only [sumSizes]
      linarith [hrec.2]
    · have hrec := nodesList_size_le cs hw'.2 hn'.2 ha'.2 v h
      have hc := sizesNonneg_size hn'.1
      refine ⟨hrec.1, ?_⟩
      simp only [sumSizes]
      linarith [hrec.2]

end

/-- C3: after aggregation, `calculate_percentages` gives every node the
percentage `node.size / total * 100` when the aggregated root size
`total` is positive and `0` when it is not, where `total` is the root's
size read once (src/sizegraphv2.py line 77) and used for every node —
never the node's own parent's size — and consequently every node's
percentage lies in [0, 100]. -/
theorem C3_percentage_of_root (t n : FileInfo)
    (hwf : wellFormed t = true) (hnn : sizesNonneg t = true)
    (hagg : aggOk t = true)
    (hn : n ∈ allNodes (calculate_percentages t)) :
    n.percentage = (if t.size > 0 then n.size / t.size * 100 else 0) ∧
    0 ≤ n.percentage ∧ n.percentage ≤ 100 := by
  have h1 := calcPct_nodes t.size t hwf n
    (by simpa [calculate_percentages] using hn)
  have h2 := nodes_size_le t hwf hnn hagg n.size h1.2
  refine ⟨h1.1, ?_, ?_⟩
  · rw [h1.1]
    split
    · next hpos =>
      exact mul_nonneg (div_nonneg h2.1 (le_of_lt hpos)) (by norm_num)
    · exact le_refl 0
  · rw [h1.1]
    split
    · next hpos =>
      have hle : n.size / t.size ≤ 1 := (div_le_one hpos).mpr h2.2
      nlinarith [hle]
    · norm_num

/-- A concrete aggregated two-file tree used to witness C3. -/
def pctExampleTree : FileInfo :=
  .mk "r" 40 true [.mk "a" 10 false [] 0, .mk "b" 30 false [] 0] 0

/-- The root node of `pctExampleTree` after `calculate_percentages`. -/
def pctExampleNode : FileInfo :=
  .mk "r" 40 true [.mk "a" 10 false [] 25, .mk "b" 30 false [] 75] 100

/-- Witness for C3 at a concrete aggregated tree of total size 40. -/
theorem C3_percentage_of_root_witness :
    (wellFormed pctExampleTree = true ∧ sizesNonneg pctExampleTree = true ∧
      aggOk pctExampleTree = true ∧
      pctExampleNode ∈ allNodes (calculate_percentages pctExampleTree)) ∧
    (pctExampleNode.percentage
        = (if pctExampleTree.size > 0 then
            pctExampleNode.size / pctExampleTree.size * 100 else 0) ∧
      0 ≤ pctExampleNode.percentage ∧ pctExampleNode.percentage ≤ 100) := by
  have hwf : wellFormed pctExampleTree = true := by
    norm_num [pctExampleTree, wellFormed, wellFormedList]
  have hnn : sizesNonneg pctExampleTree = true := by
    norm_num [pctExampleTree, sizesNonneg, sizesNonnegList, FileInfo.size]
  have hagg : aggOk pctExampleTree = true := by
    norm_num [pctExampleTree, aggOk, aggOkList, sumSizes, FileInfo.size]
  have hmem : pctExampleNode ∈ allNodes (calculate_percentages pctExampleTree) := by
    norm_num [pctExampleTree, pctExampleNode, calculate_percentages,
      calc_percentage, calcPctList, allNodes, allNodesList, FileInfo.size]
  exact ⟨⟨hwf, hnn, hagg, hmem⟩,
    C3_percentage_of_root pctExampleTree pctExampleNode hwf hnn hagg hmem⟩

/-- An axis-aligned rectangle (x, y, width, height) as handed to v1
`draw_rectangle` and v2 `QRectF`. -/
structure Rect where
  x : ℚ
  y : ℚ
  w : ℚ
  h : ℚ
deriving DecidableEq, Repr

/-- `width * height`, the display area of a rectangle. -/
def Rect.area (r : Rect) : ℚ := r.w * r.h

/-- The inner loop of v1 `worst_ratio` (src/sizegraph.py lines 283-294):
starting from `max_ratio = 0`, skip zero-size items and zero item widths
(`continue`), and accumulate the max of
`max(item_width / row_height, row_height / item_width)` over the row,
where `item_width = row_width * item.size / row_sum`. -/
def maxRatioLoop (row : List FileInfo) (row_width row_sum row_height : ℚ) : ℚ :=
  match row with
  | [] => 0
  | it :: rest =>
    if it.size = 0 then maxRatioLoop rest row_width row_sum row_height
    else if row_width * it.size / row_sum = 0 then
      maxRatioLoop rest row_width row_sum row_height
    else
      max (max ((row_width * it.size / row_sum) / row_height)
            (row_height / (row_width * it.size / row_sum)))
        (maxRatioLoop rest row_width row_sum row_height)

/-- v1 `worst_ratio` (src/sizegraph.py lines 271-296), valued in
`WithTop ℚ` with `⊤` playing `float('inf')`: infinite for an empty row, a
zero `total_size`, a zero row sum, or when no member contributes a
positive ratio (lines 274-279 and 296); otherwise the maximal member
ratio with `row_width = width * row_sum / total_size` and
`row_height = height`. -/
def worst_ratio (row : List FileInfo) (width height total_size : ℚ) :
    WithTop ℚ :=
  if row.isEmpty ∨ total_size = 0 then ⊤
  else
    let row_sum := sumSizes row
    if row_sum = 0 then ⊤
    else
      let m := maxRatioLoop row (width * row_sum / total_size) row_sum height
      if m > 0 then (m : WithTop ℚ) else ⊤

/-- The synthetic bucket `FileInfo(Path("Small Files"), small_items_size,
False, [])` of src/sizegraph.py line 327. -/
def smallFilesNode (s : ℚ) : FileInfo := .mk "Small Files" s false [] 0

/-- The `for item in visible_items` loop of v1 `layout_row`
(src/sizegraph.py lines 331-338): each visible item is assigned the
rectangle at the running `xpos` of width `width * item.size / row_sum`
and the row's height, and `xpos` advances by that width.  (Line 335's
recursion into a directory's children is `drawTree`'s business; this
records the rectangle assigned to each item itself.) -/
def placeVisibles (vs : List FileInfo)
    (xpos y width row_sum row_height : ℚ) : List (FileInfo × Rect) :=
  match vs with
  | [] => []
  | it :: rest =>
    (it, ⟨xpos, y, width * it.size / row_sum, row_height⟩) ::
      placeVisibles rest (xpos + width * it.size / row_sum) y width row_sum
        row_height

/-- v1 `layout_row` (src/sizegraph.py lines 298-340): returns the new `y`
(`y + height * row_sum / total_size`) together with the rectangles
assigned at this level — the pooled "Small Files" bucket first, emitted
when the pooled size is positive and its combined width at least 1
(items whose width `width * item.size / row_sum` falls below 1 are
pooled instead of drawn individually, lines 311-328), then the visible
items left to right.  Empty rows and zero sums return `y` unchanged and
emit nothing (lines 301-306). -/
def layout_row (items : List FileInfo) (x y width height total_size : ℚ) :
    ℚ × List (FileInfo × Rect) :=
  if items.isEmpty ∨ total_size = 0 then (y, [])
  else
    let row_sum := sumSizes items
    if row_sum = 0 then (y, [])
    else
      let row_height := height * row_sum / total_size
      let small_items_size :=
        sumSizes (items.filter fun it => decide (width * it.size / row_sum < 1))
      let visible_items :=
        items.filter fun it => decide (¬ width * it.size / row_sum < 1)
      if small_items_size > 0 ∧ width * small_items_size / row_sum ≥ 1 then
        (y + row_height,
          (smallFilesNode small_items_size,
            ⟨x, y, width * small_items_size / row_sum, row_height⟩) ::
            placeVisibles visible_items
              (x + width * small_items_size / row_sum) y width row_sum
              row_height)
      else (y + row_height, placeVisibles visible_items x y width row_sum
        row_height)

/-- The row-partitioning loop of v1 `layout_treemap` (src/sizegraph.py
lines 352-367): append the next item to the candidate row; if the new
worst ratio exceeds the stored `best_ratio`, pop the item, close the row,
and start a fresh row with just that item and `best_ratio = inf`;
otherwise keep the append and store the new ratio.  A leftover row is
closed at the end (lines 369-370). -/
def pack (items row : List FileInfo) (best : WithTop ℚ)
    (width height total_size : ℚ) : List (List FileInfo) :=
  match items with
  | [] => if row.isEmpty then [] else [row]
  | it :: rest =>
    if best < worst_ratio (row ++ [it]) width height total_size then
      row :: pack rest [it] ⊤ width height total_size
    else
      pack rest (row ++ [it])
        (worst_ratio (row ++ [it]) width height total_size) width height
        total_size

/-- The successive `y = layout_row(...)` calls of v1 `layout_treemap`:
each closed row is laid out at the `y` the previous row left, and the
assigned rectangles are concatenated in order. -/
def layoutRows (rows : List (List FileInfo))
    (x y width height total_size : ℚ) : List (FileInfo × Rect) :=
  match rows with
  | [] => []
  | row :: rest =>
    (layout_row row x y width height total_size).2 ++
      layoutRows rest x (layout_row row x y width height total_size).1 width
        height total_size

/-- v1 `layout_treemap` (src/sizegraph.py lines 342-370), recording the
rectangles assigned at this level: nothing for an empty item list or a
zero total (lines 345-350); otherwise the items are packed greedily into
rows and the rows laid out top to bottom. -/
def layout_treemap (items : List FileInfo) (x y width height : ℚ) :
    List (FileInfo × Rect) :=
  if items.isEmpty then []
  else
    let total_size := sumSizes items
    if total_size = 0 then []
    else
      layoutRows (pack items [] ⊤ width height total_size) x y width height
        total_size

/-- The `width > height` branch of v2 `_layout_children`
(src/sizegraphv2.py lines 194-199): consecutive vertical slices of width
`width * (child.size / total_size)` at the running `x_offset`. -/
def slicesH (children : List FileInfo)
    (x_offset y width height total_size : ℚ) : List (FileInfo × Rect) :=
  match children with
  | [] => []
  | c :: cs =>
    (c, ⟨x_offset, y, width * (c.size / total_size), height⟩) ::
      slicesH cs (x_offset + width * (c.size / total_size)) y width height
        total_size

/-- The `else` branch of v2 `_layout_children` (src/sizegraphv2.py lines
200-205): consecutive horizontal slices of height
`height * (child.size / total_size)` at the running `y_offset`. -/
def slicesV (children : List FileInfo)
    (x y_offset width height total_size : ℚ) : List (FileInfo × Rect) :=
  match children with
  | [] => []
  | c :: cs =>
    (c, ⟨x, y_offset, width, height * (c.size / total_size)⟩) ::
      slicesV cs x (y_offset + height * (c.size / total_size)) width height
        total_size

/-- v2 `_layout_children` (src/sizegraphv2.py lines 184-205), recording
the rectangle passed to `_draw_item` for each child: nothing for a
childless directory (lines 185-186); otherwise proportional slices of
the rectangle along its longer axis, with `total_size` the plain sum of
the children's sizes (line 192 — not guarded against zero; the checked
variant `layout_childrenE` models the division). -/
def layout_children (dir_item : FileInfo) (rect : Rect) :
    List (FileInfo × Rect) :=
  if dir_item.children.isEmpty then []
  else if rect.w > rect.h then
    slicesH dir_item.children rect.x rect.y rect.w rect.h
      (sumSizes dir_item.children)
  else
    slicesV dir_item.children rect.x rect.y rect.w rect.h
      (sumSizes dir_item.children)

/-- v1 `draw_rectangle` (src/sizegraph.py lines 242-243) returns without
drawing when `width < 2 or height < 2`; an assigned rectangle reaches the
canvas exactly when it passes this test. -/
def drawable (r : Rect) : Bool := decide (¬ (r.w < 2 ∨ r.h < 2))

/-- The assigned rectangles that v1 `draw_rectangle` actually draws. -/
def drawnRects (l : List (FileInfo × Rect)) : List (FileInfo × Rect) :=
  l.filter fun pr => drawable pr.2

/-- Stable insertion into a size-descending list: `a` is placed before
the first element whose size is ≤ its own, hence before every
later-listed element of equal size. -/
def insertDesc (a : FileInfo) : List FileInfo → List FileInfo
  | [] => [a]
  | b :: l => if b.size ≤ a.size then a :: b :: l else b :: insertDesc a l

/-- Python's stable `sorted(children, key=lambda x: x.size, reverse=True)`
of src/sizegraph.py line 375, modelled as stable insertion sort — a
stable size-descending sort's output is unique, so any stable
implementation is a faithful model. -/
def sortDesc : List FileInfo → List FileInfo
  | [] => []
  | a :: l => insertDesc a (sortDesc l)

theorem mem_placeVisibles :
    ∀ (vs : List FileInfo) (xpos y width row_sum row_height : ℚ)
      (pr : FileInfo × Rect),
      pr ∈ placeVisibles vs xpos y width row_sum row_height → pr.1 ∈ vs
  | [], _, _, _, _, _, pr, h => by simp [placeVisibles] at h
  | it :: rest, xpos, y, w, rs, rh, pr, h => by
    simp only [placeVisibles, List.mem_cons] at h
    rcases h with h | h
    · subst h; exact List.mem_cons_self _ _
    · exact List.mem_cons_of_mem _
        (mem_placeVisibles rest _ _ _ _ _ pr h)

theorem mem_layout_row (items : List FileInfo)
    (x y width height total_size : ℚ) (pr : FileInfo × Rect)
    (h : pr ∈ (layout_row items x y width height total_size).2) :
    pr.1 ∈ items ∨ pr.1.children = [] := by
  simp only [layout_row] at h
  split at h
  · simp at h
  · split at h
    · simp at h
    · split at h
      · simp only [List.mem_cons] at h
        rcases h with h | h
        · right
          rw [h]
          simp [smallFilesNode, FileInfo.children]
        · left
          have := mem_placeVisibles _ _ _ _ _ _ _ h
          exact (List.mem_filter.mp this).1
      · left
        have := mem_placeVisibles _ _ _ _ _ _ _ h
        exact (List.mem_filter.mp this).1

theorem pack_flatten :
    ∀ (items row : List FileInfo) (best : WithTop ℚ) (w h T : ℚ),
      (pack items row best w h T).flatten = row ++ items
  | [], row, best, w, h, T => by
    simp only [pack]
    split
    · next hr => simp [List.isEmpty_iff.mp hr]
    · simp
  | it :: rest, row, best, w, h, T => by
    simp only [pack]
    split
    · simp [pack_flatten rest [it] ⊤ w h T]
    · simp [pack_flatten rest (row ++ [it])
        (worst_ratio (row ++ [it]) w h T) w h T]

theorem mem_layoutRows :
    ∀ (rows : List (List FileInfo)) (x y w h T : ℚ) (pr : FileInfo × Rect),
      pr ∈ layoutRows rows x y w h T →
      (∃ row ∈ rows, pr.1 ∈ row) ∨ pr.1.children = []
  | [], x, y, w, h, T, pr, hm => by simp [layoutRows] at hm
  | row :: rest, x, y, w, h, T, pr, hm => by
    simp only [layoutRows, List.mem_append] at hm
    rcases hm with hm | hm
    · rcases mem_layout_row row x y w h T pr hm with h1 | h1
      · exact Or.inl ⟨row, List.mem_cons_self _ _, h1⟩
      · exact Or.inr h1
    · rcases mem_layoutRows rest x _ w h T pr hm with ⟨r, hr, h1⟩ | h1
      · exact Or.inl ⟨r, List.mem_cons_of_mem _ hr, h1⟩
      · exact Or.inr h1

theorem mem_layout_treemap (items : List FileInfo) (x y w h : ℚ)
    (pr : FileInfo × Rect) (hm : pr ∈ layout_treemap items x y w h) :
    pr.1 ∈ items ∨ pr.1.children = [] := by
  simp only [layout_treemap] at hm
  split at hm
  · simp at hm
  · split at hm
    · simp at hm
    · rcases mem_layoutRows _ x y w h _ pr hm with ⟨row, hrow, h1⟩ | h1
      · left
        have : pr.1 ∈ (pack items [] ⊤ w h (sumSizes items)).flatten :=
          List.mem_flatten.mpr ⟨row, hrow, h1⟩
        rwa [pack_flatten, List.nil_append] at this
      · exact Or.inr h1

theorem children_sizeOf_lt (t : FileInfo) : sizeOf t.children < sizeOf t := by
  cases t with
  | mk p s d cs pct =>
    simp only [FileInfo.children, FileInfo.mk.sizeOf_spec]
    omega

/-- v1 `draw_graph`'s recursive layout (src/sizegraph.py lines 331-338
and 342-370): the rectangles assigned at this level, each directory item
with children followed immediately (line 335) by the rectangles laid out
inside its own rectangle. -/
def drawTree (items : List FileInfo) (x y width height : ℚ) :
    List (FileInfo × Rect) :=
  ((layout_treemap items x y width height).attach.map fun pr =>
    pr.1 :: (if hd : pr.1.1.is_dir = true ∧ pr.1.1.children ≠ [] then
      drawTree pr.1.1.children pr.1.2.x pr.1.2.y pr.1.2.w pr.1.2.h
    else [])).flatten
termination_by sizeOf items
decreasing_by
  rcases mem_layout_treemap items x y width height pr.1 pr.2 with hm | hm
  · exact lt_trans (children_sizeOf_lt pr.1.1) (List.sizeOf_lt_of_mem hm)
  · exact absurd hm hd.2

/-- v1 `draw_graph`'s top-level call (src/sizegraph.py lines 372-377):
when the root has children, lay out a size-descending sorted copy of them
in the canvas rectangle (10, 10, 760, 520). -/
def draw_graph_rects (root_item : FileInfo) : List (FileInfo × Rect) :=
  if root_item.children.isEmpty then []
  else drawTree (sortDesc root_item.children) 10 10 760 520

theorem attach_map_fst {α β : Type} (l : List α) (f : α → β) :
    (l.attach.map fun pr => f pr.1) = l.map f := by
  rw [List.map_attach]
  exact List.pmap_eq_map _ _ _ _

theorem drawTree_eq (items : List FileInfo) (x y width height : ℚ) :
    drawTree items x y width height
      = ((layout_treemap items x y width height).map fun pr =>
          pr :: (if pr.1.is_dir = true ∧ pr.1.children ≠ [] then
            drawTree pr.1.children pr.2.x pr.2.y pr.2.w pr.2.h
          else [])).flatten := by
  rw [drawTree]
  congr 1
  rw [← attach_map_fst (layout_treemap items x y width height)
    (fun pr => pr :: (if pr.1.is_dir = true ∧ pr.1.children ≠ [] then
      drawTree pr.1.children pr.2.x pr.2.y pr.2.w pr.2.h else []))]
  congr 1

theorem mem_insertDesc (a b : FileInfo) :
    ∀ l : List FileInfo, b ∈ insertDesc a l ↔ b = a ∨ b ∈ l
  | [] => by simp [insertDesc]
  | c :: t => by
    simp only [insertDesc]
    split
    · simp only [List.mem_cons]
    · simp only [List.mem_cons, mem_insertDesc a b t]
      tauto

theorem mem_sortDesc (b : FileInfo) :
    ∀ l : List FileInfo, b ∈ sortDesc l ↔ b ∈ l
  | [] => by simp [sortDesc]
  | a :: t => by
    simp only [sortDesc, mem_insertDesc a b (sortDesc t), mem_sortDesc b t,
      List.mem_cons]

theorem insertDesc_perm (a : FileInfo) :
    ∀ l : List FileInfo, (insertDesc a l).Perm (a :: l)
  | [] => List.Perm.refl _
  | b :: t => by
    simp only [insertDesc]
    split
    · exact List.Perm.refl _
    · exact ((insertDesc_perm a t).cons b).trans (List.Perm.swap a b t)

theorem sortDesc_perm : ∀ l : List FileInfo, (sortDesc l).Perm l
  | [] => List.Perm.refl _
  | a :: t => by
    simp only [sortDesc]
    exact (insertDesc_perm a (sortDesc t)).trans ((sortDesc_perm t).cons a)

theorem insertDesc_sorted (a : FileInfo) :
    ∀ l : List FileInfo, l.Pairwise (fun u v => v.size ≤ u.size) →
      (insertDesc a l).Pairwise (fun u v => v.size ≤ u.size)
  | [], _ => by simp [insertDesc]
  | b :: t, h => by
    simp only [insertDesc]
    split
    · next hba =>
      refine List.Pairwise.cons ?_ h
      intro x hx
      rcases List.mem_cons.mp hx with rfl | hx
      · exact hba
      · exact le_trans ((List.pairwise_cons.mp h).1 x hx) hba
    · next hba =>
      push_neg at hba
      have h' := List.pairwise_cons.mp h
      refine List.Pairwise.cons ?_ (insertDesc_sorted a t h'.2)
      intro x hx
      rcases (mem_insertDesc a x t).mp hx with rfl | hx
      · exact le_of_lt hba
      · exact h'.1 x hx

theorem sortDesc_sorted :
    ∀ l : List FileInfo, (sortDesc l).Pairwise (fun u v => v.size ≤ u.size)
  | [] => by simp [sortDesc]
  | a :: t => by
    simp only [sortDesc]
    exact insertDesc_sorted a (sortDesc t) (sortDesc_sorted t)

theorem filter_insertDesc (a : FileInfo) (s : ℚ) :
    ∀ l : List FileInfo,
      (insertDesc a l).filter (fun it => decide (it.size = s))
        = if a.size = s then
            a :: l.filter (fun it => decide (it.size = s))
          else l.filter (fun it => decide (it.size = s))
  | [] => by
    by_cases ha : a.size = s <;> simp [insertDesc, List.filter_cons, ha]
  | b :: t => by
    simp only [insertDesc]
    split
    · next hba =>
      by_cases ha : a.size = s <;> simp [List.filter_cons, ha]
    · next hba =>
      push_neg at hba
      rw [List.filter_cons, filter_insertDesc a s t]
      by_cases ha : a.size = s
      · have hbs : ¬ b.size = s := by
          intro hb
          rw [← ha] at hb
          exact absurd hb (ne_of_gt hba)
        simp [List.filter_cons, ha, hbs]
      · simp [List.filter_cons, ha]

theorem sortDesc_stable (s : ℚ) :
    ∀ l : List FileInfo,
      (sortDesc l).filter (fun it => decide (it.size = s))
        = l.filter (fun it => decide (it.size = s))
  | [] => by simp [sortDesc]
  | a :: t => by
    simp only [sortDesc]
    rw [filter_insertDesc a s (sortDesc t), sortDesc_stable s t]
    by_cases ha : a.size = s <;> simp [List.filter_cons, ha]

/-- Modelled from the spec for comparison with `drawTree` (claim C6): "At
every level of the layout recursion (not only the root), the children
being laid out are first sorted by descending size ... before they are
partitioned into rows" — the same recursion as `drawTree` but sorting at
every level, where `drawTree` (the code) receives `item.children` as-is
in its recursive call (src/sizegraph.py line 335). -/
def drawTreeSortedSpec (items : List FileInfo) (x y width height : ℚ) :
    List (FileInfo × Rect) :=
  ((layout_treemap (sortDesc items) x y width height).attach.map fun pr =>
    pr.1 :: (if hd : pr.1.1.is_dir = true ∧ pr.1.1.children ≠ [] then
      drawTreeSortedSpec pr.1.1.children pr.1.2.x pr.1.2.y pr.1.2.w pr.1.2.h
    else [])).flatten
termination_by sizeOf items
decreasing_by
  rcases mem_layout_treemap (sortDesc items) x y width height pr.1 pr.2
    with hm | hm
  · exact lt_trans (children_sizeOf_lt pr.1.1)
      (List.sizeOf_lt_of_mem ((mem_sortDesc pr.1.1 items).mp hm))
  · exact absurd hm hd.2

theorem drawTreeSortedSpec_eq (items : List FileInfo) (x y width height : ℚ) :
    drawTreeSortedSpec items x y width height
      = ((layout_treemap (sortDesc items) x y width height).map fun pr =>
          pr :: (if pr.1.is_dir = true ∧ pr.1.children ≠ [] then
            drawTreeSortedSpec pr.1.children pr.2.x pr.2.y pr.2.w pr.2.h
          else [])).flatten := by
  rw [drawTreeSortedSpec]
  congr 1
  rw [← attach_map_fst (layout_treemap (sortDesc items) x y width height)
    (fun pr => pr :: (if pr.1.is_dir = true ∧ pr.1.children ≠ [] then
      drawTreeSortedSpec pr.1.children pr.2.x pr.2.y pr.2.w pr.2.h else []))]
  congr 1

/-- The size-60 file of the spec's proportionality example. -/
def itemA60 : FileInfo := .mk "f60" 60 false [] 0

/-- The size-40 file of the spec's proportionality example. -/
def itemB40 : FileInfo := .mk "f40" 40 false [] 0

/-- C5 counterexample: the claim says two children of sizes 60 and 40 in
a 100x50 rectangle are assigned side-by-side rectangles of widths 60 and
40, each of height 50.  v1's `layout_treemap`/`layout_row` (an explicitly
cited source of the claim) instead always stacks full-width horizontal
strips: it closes the row [60] (worst ratio 5/4 of the two-member row
exceeds the stored 6/5) and lays the children out as 100x30 above
100x20 — no assigned rectangle has width 60 or height 50. -/
theorem C5_counterexample :
    layout_treemap [itemA60, itemB40] 0 0 100 50
      = [(itemA60, ⟨0, 0, 100, 30⟩), (itemB40, ⟨0, 30, 100, 20⟩)] ∧
    (layout_treemap [itemA60, itemB40] 0 0 100 50).map (fun pr => pr.2.w)
      ≠ [60, 40] ∧
    (layout_treemap [itemA60, itemB40] 0 0 100 50).map (fun pr => pr.2.h)
      ≠ [50, 50] := by
  have h : layout_treemap [itemA60, itemB40] 0 0 100 50
      = [(itemA60, ⟨0, 0, 100, 30⟩), (itemB40, ⟨0, 30, 100, 20⟩)] := by
    norm_num [itemA60, itemB40, layout_treemap, pack, worst_ratio,
      maxRatioLoop, layout_row, layoutRows, placeVisibles, sumSizes,
      FileInfo.size, List.filter, WithTop.coe_lt_coe]
  refine ⟨h, ?_, ?_⟩ <;> rw [h] <;> norm_num

/-- C5 as amended: in v2 (`_layout_children`) the 100x50 rectangle is
split along its wide axis into widths 60 and 40 at full height 50, as the
claim says; in v1 (`layout_treemap`/`layout_row`) rows are always
horizontal strips spanning the full width, so the same two children get
stacked rectangles 100x30 and 100x20 whose heights are proportional to
their sizes. -/
theorem C5_proportionality_amended :
    layout_children (.mk "d" 100 true [itemA60, itemB40] 0) ⟨0, 0, 100, 50⟩
      = [(itemA60, ⟨0, 0, 60, 50⟩), (itemB40, ⟨60, 0, 40, 50⟩)] ∧
    layout_treemap [itemA60, itemB40] 0 0 100 50
      = [(itemA60, ⟨0, 0, 100, 30⟩), (itemB40, ⟨0, 30, 100, 20⟩)] := by
  constructor
  · norm_num [itemA60, itemB40, layout_children, slicesH, slicesV, sumSizes,
      FileInfo.size, FileInfo.children]
  · norm_num [itemA60, itemB40, layout_treemap, pack, worst_ratio,
      maxRatioLoop, layout_row, layoutRows, placeVisibles, sumSizes,
      FileInfo.size, List.filter, WithTop.coe_lt_coe]

/-- The size-1 file listed first inside `dirD`. -/
def fiA : FileInfo := .mk "a" 1 false [] 0

/-- The size-5 file listed second inside `dirD`. -/
def fiB : FileInfo := .mk "b" 5 false [] 0

/-- An aggregated directory whose children are in ascending size order —
the order a scan could well produce. -/
def dirD : FileInfo := .mk "D" 6 true [fiA, fiB] 0

/-- C6 counterexample: the claim says children are sorted by descending
size at every level of the layout recursion, not only the root.  In v1
only `draw_graph`'s top-level call sorts (src/sizegraph.py line 375); the
recursive call passes `item.children` unsorted (line 335).  Laying out
`[dirD]` (whose children have sizes 1 and 5 in that order) in a 100x50
rectangle, the code lays the size-1 child out first at the inner level —
packing the unsorted children into a single row — whereas sorting at
every level would close the row after the size-5 child and stack two
strips; the two outputs differ. -/
theorem C6_counterexample :
    (drawTree [dirD] 0 0 100 50).map (fun pr => (pr.1.path, pr.2))
      = [("D", ⟨0, 0, 100, 50⟩), ("a", ⟨0, 0, 50/3, 50⟩),
         ("b", ⟨50/3, 0, 250/3, 50⟩)] ∧
    (drawTreeSortedSpec [dirD] 0 0 100 50).map (fun pr => (pr.1.path, pr.2))
      = [("D", ⟨0, 0, 100, 50⟩), ("b", ⟨0, 0, 100, 125/3⟩),
         ("a", ⟨0, 125/3, 100, 25/3⟩)] ∧
    drawTree [dirD] 0 0 100 50 ≠ drawTreeSortedSpec [dirD] 0 0 100 50 := by
  have h1 : (drawTree [dirD] 0 0 100 50).map (fun pr => (pr.1.path, pr.2))
      = [("D", ⟨0, 0, 100, 50⟩), ("a", ⟨0, 0, 50/3, 50⟩),
         ("b", ⟨50/3, 0, 250/3, 50⟩)] := by
    rw [drawTree_eq]
    norm_num [dirD, fiA, fiB, layout_treemap, pack, worst_ratio, maxRatioLoop,
      layout_row, layoutRows, placeVisibles, sumSizes, FileInfo.size,
      FileInfo.is_dir, FileInfo.children, FileInfo.path, List.filter,
      WithTop.coe_lt_coe]
    rw [drawTree_eq]
    norm_num [layout_treemap, pack, worst_ratio, maxRatioLoop, layout_row,
      layoutRows, placeVisibles, sumSizes, FileInfo.size, FileInfo.is_dir,
      FileInfo.children, FileInfo.path, List.filter, WithTop.coe_lt_coe]
    simp [FileInfo.path]
  have h2 : (drawTreeSortedSpec [dirD] 0 0 100 50).map
        (fun pr => (pr.1.path, pr.2))
      = [("D", ⟨0, 0, 100, 50⟩), ("b", ⟨0, 0, 100, 125/3⟩),
         ("a", ⟨0, 125/3, 100, 25/3⟩)] := by
    rw [drawTreeSortedSpec_eq]
    norm_num [dirD, fiA, fiB, sortDesc, insertDesc, layout_treemap, pack,
      worst_ratio, maxRatioLoop, layout_row, layoutRows, placeVisibles,
      sumSizes, FileInfo.size, FileInfo.is_dir, FileInfo.children,
      FileInfo.path, List.filter, WithTop.coe_lt_coe, -WithTop.coe_ofNat]
    rw [drawTreeSortedSpec_eq]
    norm_num [sortDesc, insertDesc, layout_treemap, pack, worst_ratio,
      maxRatioLoop, layout_row, layoutRows, placeVisibles, sumSizes,
      FileInfo.size, FileInfo.is_dir, FileInfo.children, FileInfo.path,
      List.filter, WithTop.coe_lt_coe, -WithTop.coe_ofNat]
    simp [FileInfo.path]
  refine ⟨h1, h2, fun heq => ?_⟩
  rw [heq, h2] at h1
  have := congrArg (fun l => l.get? 1) h1
  norm_num at this

/-- C6 as amended: the descending sort happens only at the root
invocation — `draw_graph` lays out a sorted copy of the root's children,
while every recursive level receives the children in their canonical
(scan) order, as the concrete `dirD` layout shows.  The root sort is
Python's stable `sorted(..., key=size, reverse=True)`: the model
`sortDesc` is size-descending, a permutation of its input, and keeps
equal-size elements in their original relative order; being a pure copy,
it leaves the tree's canonical children lists untouched. -/
theorem C6_sorting_amended (l : List FileInfo) (s : ℚ)
    (root_item : FileInfo) :
    (sortDesc l).Pairwise (fun u v => v.size ≤ u.size) ∧
    (sortDesc l).Perm l ∧
    (sortDesc l).filter (fun it => decide (it.size = s))
      = l.filter (fun it => decide (it.size = s)) ∧
    draw_graph_rects root_item
      = (if root_item.children.isEmpty then []
         else drawTree (sortDesc root_item.children) 10 10 760 520) ∧
    (drawTree [dirD] 0 0 100 50).map (fun pr => pr.1.path)
      = ["D", "a", "b"] := by
  refine ⟨sortDesc_sorted l, sortDesc_perm l, sortDesc_stable s l,
    rfl, ?_⟩
  rw [drawTree_eq]
  norm_num [dirD, fiA, fiB, layout_treemap, pack, worst_ratio, maxRatioLoop,
    layout_row, layoutRows, placeVisibles, sumSizes, FileInfo.size,
    FileInfo.is_dir, FileInfo.children, FileInfo.path, List.filter,
    WithTop.coe_lt_coe]
  rw [drawTree_eq]
  norm_num [layout_treemap, pack, worst_ratio, maxRatioLoop, layout_row,
    layoutRows, placeVisibles, sumSizes, FileInfo.size, FileInfo.is_dir,
    FileInfo.children, FileInfo.path, List.filter, WithTop.coe_lt_coe]
  simp [FileInfo.path]

/-- Modelled from the spec for comparison (claim C7): the worst aspect
ratio of a candidate row "for the row laid out at its implied strip
dimensions" — the strip height `height * row_sum / total_size` the row
will occupy and member widths `width * member.size / row_sum` within that
strip; infinite for an empty row. -/
def worstRatioSpec (row : List FileInfo) (width height total_size : ℚ) :
    WithTop ℚ :=
  match row.map (fun it =>
      max ((width * it.size / sumSizes row)
            / (height * sumSizes row / total_size))
        ((height * sumSizes row / total_size)
            / (width * it.size / sumSizes row))) with
  | [] => ⊤
  | r :: rs => ((rs.foldl max r : ℚ) : WithTop ℚ)

/-- Modelled from the spec for comparison (claim C7): greedy one-step
lookahead packing in which every candidate append is compared against the
worst ratio of the row *without* the new member: "If appending increases
the worst ratio compared to the ratio without the new member, close the
row before the new member (backtrack: remove it, finalize the row, start
a new row with it), else accept the append and continue." -/
def packSpecRule (items row : List FileInfo) (width height total_size : ℚ) :
    List (List FileInfo) :=
  match items with
  | [] => if row.isEmpty then [] else [row]
  | it :: rest =>
    if worstRatioSpec row width height total_size
        < worstRatioSpec (row ++ [it]) width height total_size then
      row :: packSpecRule rest [it] width height total_size
    else packSpecRule rest (row ++ [it]) width height total_size

/-- Size-100 file of the C7 packing example. -/
def g100 : FileInfo := .mk "g100" 100 false [] 0

/-- Size-50 file of the C7 packing example. -/
def g50 : FileInfo := .mk "g50" 50 false [] 0

/-- Size-1 file of the C7 packing example. -/
def g1 : FileInfo := .mk "g1" 1 false [] 0

theorem maxRatioLoop_cancel :
    ∀ (row : List FileInfo) (w T h rs : ℚ), rs ≠ 0 →
      maxRatioLoop row (w * rs / T) rs h = maxRatioLoop row (w / T) 1 h
  | [], w, T, h, rs, hrs => by simp [maxRatioLoop]
  | it :: rest, w, T, h, rs, hrs => by
    have key : w * rs / T * it.size / rs = w / T * it.size / 1 := by
      rcases eq_or_ne T 0 with rfl | hT
      · simp
      · field_simp
        ring
    simp only [maxRatioLoop, key, maxRatioLoop_cancel rest w T h rs hrs]

/-- C7 counterexample: the claim's rule (compare the row's worst ratio
with the appended child against the ratio without it, closing the row
when it increases) partitions sizes [100, 50, 1] in a 100x100 rectangle
into [[100], [50], [1]], because appending the size-1 file raises the
worst ratio of the row [50] (both by the spec's implied-strip formula and
by the code's own `worst_ratio`).  The code's loop instead accepts it —
after a backtrack `best_ratio` is reset to infinity (src/sizegraph.py
lines 361-364), so the first append onto a freshly started row is
accepted unconditionally — and produces [[100], [50, 1]]. -/
theorem C7_counterexample :
    (pack [g100, g50, g1] [] ⊤ 100 100 151).map (List.map FileInfo.size)
      = [[100], [50, 1]] ∧
    (packSpecRule [g100, g50, g1] [] 100 100 151).map (List.map FileInfo.size)
      = [[100], [50], [1]] ∧
    (pack [g100, g50, g1] [] ⊤ 100 100 151).map (List.map FileInfo.size)
      ≠ (packSpecRule [g100, g50, g1] [] 100 100 151).map
          (List.map FileInfo.size) ∧
    worstRatioSpec [g50] 100 100 151 < worstRatioSpec [g50, g1] 100 100 151 ∧
    worst_ratio [g50] 100 100 151 < worst_ratio [g50, g1] 100 100 151 ∧
    pack [g1] [g50] ⊤ 100 100 151 = [[g50, g1]] := by
  refine ⟨?_, ?_, ?_, ?_, ?_, ?_⟩
  · norm_num [g100, g50, g1, pack, worst_ratio, maxRatioLoop, sumSizes,
      FileInfo.size, WithTop.coe_lt_coe, -WithTop.coe_ofNat]
  · norm_num [g100, g50, g1, packSpecRule, worstRatioSpec, sumSizes,
      FileInfo.size, WithTop.coe_lt_coe, -WithTop.coe_ofNat]
  · norm_num [g100, g50, g1, pack, packSpecRule, worst_ratio, worstRatioSpec,
      maxRatioLoop, sumSizes, FileInfo.size, WithTop.coe_lt_coe,
      -WithTop.coe_ofNat]
  · norm_num [g50, g1, worstRatioSpec, sumSizes, FileInfo.size,
      WithTop.coe_lt_coe, -WithTop.coe_ofNat]
  · norm_num [g50, g1, worst_ratio, maxRatioLoop, sumSizes, FileInfo.size,
      WithTop.coe_lt_coe, -WithTop.coe_ofNat]
  · norm_num [g50, g1, pack, worst_ratio, maxRatioLoop, sumSizes,
      FileInfo.size, WithTop.coe_lt_coe, -WithTop.coe_ofNat]

/-- C7 as amended: the packing is greedy one-step lookahead against the
*stored* `best_ratio`: a row grown by accepted appends stores its own
worst ratio, and the row is closed exactly when the appended row's ratio
strictly exceeds the stored one; but after a backtrack the fresh row's
stored ratio is infinity, so its first append is always accepted
(first conjunct: with stored ratio `⊤` the append is never rejected).
Moreover the code's `worst_ratio` does not use the row's implied strip
dimensions: `row_height` is the full rectangle height, and each member's
width `row_width * size / row_sum` cancels to `width * size / total_size`
(second conjunct), so a member's ratio is independent of its rowmates.
On the [100, 50, 1] example this yields rows [[100], [50, 1]] (third
conjunct). -/
theorem C7_row_packing_amended (c : FileInfo) (items row : List FileInfo)
    (w h T : ℚ) (hrs : sumSizes row ≠ 0) :
    pack (c :: items) row ⊤ w h T
      = pack items (row ++ [c]) (worst_ratio (row ++ [c]) w h T) w h T ∧
    maxRatioLoop row (w * sumSizes row / T) (sumSizes row) h
      = maxRatioLoop row (w / T) 1 h ∧
    (pack [g100, g50, g1] [] ⊤ 100 100 151).map (List.map FileInfo.size)
      = [[100], [50, 1]] := by
  refine ⟨?_, maxRatioLoop_cancel row w T h (sumSizes row) hrs, ?_⟩
  · simp only [pack]
    rw [if_neg not_top_lt]
  · norm_num [g100, g50, g1, pack, worst_ratio, maxRatioLoop, sumSizes,
      FileInfo.size, WithTop.coe_lt_coe, -WithTop.coe_ofNat]

/-- Witness for the amended C7 at the concrete packing step that the
counterexample exhibits: the fresh row [g50] with stored ratio infinity
accepts g1. -/
theorem C7_row_packing_amended_witness :
    (sumSizes [g50] ≠ 0) ∧
    (pack [g1] [g50] ⊤ 100 100 151
        = pack [] ([g50] ++ [g1]) (worst_ratio ([g50] ++ [g1]) 100 100 151)
            100 100 151 ∧
      maxRatioLoop [g50] (100 * sumSizes [g50] / 151) (sumSizes [g50]) 100
        = maxRatioLoop [g50] (100 / 151) 1 100 ∧
      (pack [g100, g50, g1] [] ⊤ 100 100 151).map (List.map FileInfo.size)
        = [[100], [50, 1]]) :=
  ⟨by norm_num [sumSizes, g50, FileInfo.size],
    C7_row_packing_amended g1 [] [g50] 100 100 151
      (by norm_num [sumSizes, g50, FileInfo.size])⟩

/-- The `small_items_size` accumulated by v1 `layout_row` (src/sizegraph.py
lines 311-319): the total size of the items whose computed width falls
below 1 display unit. -/
def pooledSize (items : List FileInfo) (w : ℚ) : ℚ :=
  sumSizes (items.filter fun it => decide (w * it.size / sumSizes items < 1))

theorem sumSizes_append (a b : List FileInfo) :
    sumSizes (a ++ b) = sumSizes a + sumSizes b := by
  induction a with
  | nil => simp [sumSizes]
  | cons c cs ih => simp [sumSizes, ih]; ring

theorem sumSizes_filter_partition (items : List FileInfo)
    (p : FileInfo → Bool) :
    sumSizes (items.filter p)
        + sumSizes (items.filter fun it => !(p it))
      = sumSizes items := by
  induction items with
  | nil => simp [sumSizes]
  | cons c cs ih =>
    cases hc : p c <;>
      simp [List.filter_cons, hc, sumSizes, ← ih] <;> ring

theorem sumSizes_replicate (n : ℕ) (t : FileInfo) :
    sumSizes (List.replicate n t) = n * t.size := by
  induction n with
  | zero => simp [sumSizes]
  | succ k ih =>
    rw [List.replicate_succ]
    simp only [sumSizes, ih]
    push_cast
    ring

theorem filter_replicate_of_false {p : FileInfo → Bool} {a : FileInfo}
    (hp : p a = false) (n : ℕ) : (List.replicate n a).filter p = [] := by
  induction n with
  | zero => simp
  | succ k ih => rw [List.replicate_succ, List.filter_cons, hp]; exact ih

theorem filter_replicate_of_true {p : FileInfo → Bool} {a : FileInfo}
    (hp : p a = true) (n : ℕ) :
    (List.replicate n a).filter p = List.replicate n a := by
  induction n with
  | zero => simp
  | succ k ih => rw [List.replicate_succ, List.filter_cons, hp]; simp [ih]

theorem placeVisibles_shape :
    ∀ (vs : List FileInfo) (xpos y w rs rh : ℚ) (pr : FileInfo × Rect),
      pr ∈ placeVisibles vs xpos y w rs rh →
      pr.2.w = w * pr.1.size / rs ∧ pr.2.h = rh ∧ pr.2.y = y
  | [], _, _, _, _, _, pr, h => by simp [placeVisibles] at h
  | it :: rest, xpos, y, w, rs, rh, pr, h => by
    simp only [placeVisibles, List.mem_cons] at h
    rcases h with h | h
    · subst h; exact ⟨rfl, rfl, rfl⟩
    · exact placeVisibles_shape rest _ _ _ _ _ pr h

/-- A file of size 0.2 — the spec example's tiny sibling.  (The layout
functions accept any numeric size; stat sizes are integers, but the
spec's own example uses 0.2 and the Python code never requires
integrality.) -/
def tinyFifth : FileInfo := .mk "tiny" (1/5) false [] 0

/-- The size-990 sibling of the spec's pooling example. -/
def b990 : FileInfo := .mk "big990" 990 false [] 0

/-- The spec's pooling example population: one size-990 sibling next to
fifty siblings of size 0.2 (total 1000). -/
def items990 : List FileInfo := b990 :: List.replicate 50 tinyFifth

/-- One accepted step of the packing loop: when the new worst ratio does
not exceed the stored one, the item joins the row. -/
theorem pack_step_accept (it : FileInfo) (rest row : List FileInfo)
    (best : WithTop ℚ) (w h T : ℚ)
    (hacc : ¬ best < worst_ratio (row ++ [it]) w h T) :
    pack (it :: rest) row best w h T
      = pack rest (row ++ [it]) (worst_ratio (row ++ [it]) w h T) w h T := by
  rw [pack]
  exact if_neg hacc

/-- One closing step of the packing loop: when the new worst ratio
exceeds the stored one, the row is closed before the item. -/
theorem pack_step_close (it : FileInfo) (rest row : List FileInfo)
    (best : WithTop ℚ) (w h T : ℚ)
    (hclose : best < worst_ratio (row ++ [it]) w h T) :
    pack (it :: rest) row best w h T = row :: pack rest [it] ⊤ w h T := by
  rw [pack]
  exact if_pos hclose

theorem maxRatioLoop_tiny_unit :
    ∀ k : ℕ, maxRatioLoop (tinyFifth :: List.replicate k tinyFifth)
      (1000 / 1000) 1 500 = 2500
  | 0 => by norm_num [List.replicate, maxRatioLoop, tinyFifth, FileInfo.size]
  | k+1 => by
    rw [List.replicate_succ, maxRatioLoop]
    rw [maxRatioLoop_tiny_unit k]
    norm_num [tinyFifth, FileInfo.size]

theorem worst_tiny (k : ℕ) :
    worst_ratio (tinyFifth :: List.replicate k tinyFifth) 1000 500 1000
      = ((2500 : ℚ) : WithTop ℚ) := by
  have hrs : sumSizes (tinyFifth :: List.replicate k tinyFifth)
      = ((k : ℚ) + 1) * (1 / 5) := by
    simp [sumSizes, sumSizes_replicate, tinyFifth, FileInfo.size]
    ring
  have hrs0 : sumSizes (tinyFifth :: List.replicate k tinyFifth) ≠ 0 := by
    rw [hrs]
    positivity
  have hm : maxRatioLoop (tinyFifth :: List.replicate k tinyFifth)
      (1000 * sumSizes (tinyFifth :: List.replicate k tinyFifth) / 1000)
      (sumSizes (tinyFifth :: List.replicate k tinyFifth)) 500 = 2500 := by
    rw [maxRatioLoop_cancel _ _ _ _ _ hrs0]
    exact maxRatioLoop_tiny_unit k
  simp only [worst_ratio]
  rw [if_neg (by simp), if_neg hrs0, hm]
  norm_num

theorem pack_tiny :
    ∀ (n k : ℕ),
      pack (List.replicate n tinyFifth)
        (tinyFifth :: List.replicate k tinyFifth)
        ((2500 : ℚ) : WithTop ℚ) 1000 500 1000
      = [tinyFifth :: List.replicate (k + n) tinyFifth]
  | 0, k => by simp [pack]
  | n+1, k => by
    rw [List.replicate_succ]
    have happ : (tinyFifth :: List.replicate k tinyFifth) ++ [tinyFifth]
        = tinyFifth :: List.replicate (k+1) tinyFifth := by
      rw [List.replicate_succ']
      simp
    rw [pack_step_accept _ _ _ _ _ _ _
      (by rw [happ, worst_tiny (k+1)]; exact lt_irrefl _)]
    rw [happ, worst_tiny (k+1), pack_tiny n (k+1)]
    have : k + 1 + n = k + (n + 1) := by omega
    rw [this]

theorem pack_tiny_top (n : ℕ) :
    pack (List.replicate (n+1) tinyFifth) [tinyFifth] ⊤ 1000 500 1000
      = [tinyFifth :: List.replicate (n+1) tinyFifth] := by
  rw [List.replicate_succ]
  have happ : ([tinyFifth] : List FileInfo) ++ [tinyFifth]
      = tinyFifth :: List.replicate 1 tinyFifth := by
    simp [List.replicate]
  rw [pack_step_accept _ _ _ _ _ _ _ (by exact not_top_lt)]
  rw [happ, worst_tiny 1, pack_tiny n 1]
  have : 1 + n = n + 1 := by omega
  rw [this, List.replicate_succ]

theorem pack_items990 :
    pack items990 [] ⊤ 1000 500 1000
      = [[b990], tinyFifth :: List.replicate 49 tinyFifth] := by
  have h50 : (List.replicate 50 tinyFifth : List FileInfo)
      = tinyFifth :: List.replicate 49 tinyFifth := List.replicate_succ _ _
  have w1 : worst_ratio (([] : List FileInfo) ++ [b990]) 1000 500 1000
      = ((99/50 : ℚ) : WithTop ℚ) := by
    norm_num [worst_ratio, maxRatioLoop, sumSizes, b990, FileInfo.size,
      -WithTop.coe_ofNat]
  have w2 : worst_ratio ([b990] ++ [tinyFifth]) 1000 500 1000
      = ((2500 : ℚ) : WithTop ℚ) := by
    norm_num [worst_ratio, maxRatioLoop, sumSizes, b990, tinyFifth,
      FileInfo.size, -WithTop.coe_ofNat]
  rw [items990, h50]
  rw [pack_step_accept _ _ _ _ _ _ _ (by exact not_top_lt)]
  rw [w1]
  simp only [List.nil_append]
  rw [pack_step_close _ _ _ _ _ _ _
    (by rw [w2, WithTop.coe_lt_coe]; norm_num)]
  rw [show (List.replicate 49 tinyFifth : List FileInfo)
    = List.replicate (48 + 1) tinyFifth by norm_num]
  rw [pack_tiny_top 48]

/-- The layout of the spec's pooling example: the size-990 sibling fills
a full-width row of height 495, and the fifty tiny siblings form their
own row (height 5) in which each has width 20 — none is pooled. -/
theorem layout_items990 :
    layout_treemap items990 0 0 1000 500
      = (b990, ⟨0, 0, 1000, 495⟩) ::
          placeVisibles (List.replicate 50 tinyFifth) 0 495 1000 10 5 := by
  have hsum : sumSizes items990 = 1000 := by
    simp [items990, sumSizes, sumSizes_replicate, b990, tinyFifth,
      FileInfo.size]
    norm_num
  have hsum2 : sumSizes (tinyFifth :: List.replicate 49 tinyFifth) = 10 := by
    simp [sumSizes, sumSizes_replicate, tinyFifth, FileInfo.size]
    norm_num
  have hf1 : List.filter
      (fun it => decide (1000 * it.size / 10 < 1))
      (tinyFifth :: List.replicate 49 tinyFifth) = [] := by
    have hp : (decide (1000 * tinyFifth.size / 10 < 1)) = false := by
      norm_num [tinyFifth, FileInfo.size]
    rw [List.filter_cons, hp]
    simp only [Bool.false_eq_true, if_false]
    exact filter_replicate_of_false hp 49
  have hf2 : List.filter
      (fun it => decide (¬ 1000 * it.size / 10 < 1))
      (tinyFifth :: List.replicate 49 tinyFifth)
      = tinyFifth :: List.replicate 49 tinyFifth := by
    have hp : (decide (¬ 1000 * tinyFifth.size / 10 < 1)) = true := by
      norm_num [tinyFifth, FileInfo.size]
    rw [List.filter_cons, hp]
    simp only [if_true]
    rw [filter_replicate_of_true hp 49]
  have hrow1 : layout_row [b990] 0 0 1000 500 1000
      = (495, [(b990, ⟨0, 0, 1000, 495⟩)]) := by
    norm_num [layout_row, sumSizes, placeVisibles, b990, FileInfo.size,
      List.filter]
  have hrow2 : layout_row (tinyFifth :: List.replicate 49 tinyFifth) 0 495
        1000 500 1000
      = (500, placeVisibles (tinyFifth :: List.replicate 49 tinyFifth) 0 495
          1000 10 5) := by
    simp only [layout_row, hsum2]
    rw [if_neg (by norm_num), if_neg (by norm_num)]
    rw [hf1, hf2]
    rw [if_neg (by norm_num [sumSizes])]
    norm_num [sumSizes]
  simp only [layout_treemap, hsum]
  rw [if_neg (by simp [items990]), if_neg (by norm_num)]
  rw [pack_items990]
  simp only [layoutRows, hrow1, hrow2]
  rw [show (List.replicate 50 tinyFifth : List FileInfo)
    = tinyFifth :: List.replicate 49 tinyFifth from List.replicate_succ _ _]
  simp

theorem items990_bucket_count :
    ((layout_treemap items990 0 0 1000 500).filter
        (fun pr => decide (¬ pr.1 ∈ items990))).length ≤ 1 := by
  rw [layout_items990]
  have hb : (decide (¬ b990 ∈ items990)) = false := by
    simp [items990]
  rw [List.filter_cons]
  simp only [hb, Bool.false_eq_true, if_false]
  have hrest : (placeVisibles (List.replicate 50 tinyFifth) 0 495 1000 10
        5).filter (fun pr => decide (¬ pr.1 ∈ items990)) = [] := by
    rw [List.filter_eq_nil_iff]
    intro pr hpr
    have hm := mem_placeVisibles _ _ _ _ _ _ pr hpr
    have ht : pr.1 = tinyFifth := List.eq_of_mem_replicate hm
    simp [items990, ht, List.mem_replicate]
  rw [hrest]
  simp

theorem items990_no_slivers :
    ∀ pr ∈ layout_treemap items990 0 0 1000 500, 1 ≤ pr.2.w := by
  rw [layout_items990]
  intro pr hpr
  rcases List.mem_cons.mp hpr with rfl | hpr
  · norm_num
  · have hs := placeVisibles_shape _ _ _ _ _ _ pr hpr
    have hm := mem_placeVisibles _ _ _ _ _ _ pr hpr
    have ht : pr.1 = tinyFifth := List.eq_of_mem_replicate hm
    rw [hs.1, ht]
    norm_num [tinyFifth, FileInfo.size]

theorem layout_row_mem_char (items : List FileInfo) (x y w h T : ℚ)
    (hne : items ≠ []) (hT : T ≠ 0) (hrs : sumSizes items ≠ 0) :
    ∀ pr ∈ (layout_row items x y w h T).2,
      pr.1 = smallFilesNode (pooledSize items w) ∨
      (pr.1 ∈ items ∧ 1 ≤ w * pr.1.size / sumSizes items) := by
  intro pr hpr
  simp only [layout_row] at hpr
  rw [if_neg (by simp [List.isEmpty_iff, hne, hT])] at hpr
  rw [if_neg hrs] at hpr
  split at hpr
  · rcases List.mem_cons.mp hpr with heq | hpr
    · left
      rw [heq, pooledSize]
    · right
      have hm := mem_placeVisibles _ _ _ _ _ _ pr hpr
      have hf := List.mem_filter.mp hm
      exact ⟨hf.1, not_lt.mp (by simpa using hf.2)⟩
  · right
    have hm := mem_placeVisibles _ _ _ _ _ _ pr hpr
    have hf := List.mem_filter.mp hm
    exact ⟨hf.1, not_lt.mp (by simpa using hf.2)⟩

theorem layout_row_bucket_count (items : List FileInfo) (x y w h T : ℚ)
    (hne : items ≠ []) (hT : T ≠ 0) (hrs : sumSizes items ≠ 0) :
    ((layout_row items x y w h T).2.filter
        (fun pr => decide (¬ pr.1 ∈ items))).length ≤ 1 := by
  have hrest : ∀ xpos rh : ℚ,
      (placeVisibles (items.filter fun it =>
          decide (¬ w * it.size / sumSizes items < 1)) xpos y w
          (sumSizes items) rh).filter
        (fun pr => decide (¬ pr.1 ∈ items)) = [] := by
    intro xpos rh
    rw [List.filter_eq_nil_iff]
    intro pr hpr
    have hm := mem_placeVisibles _ _ _ _ _ _ pr hpr
    simp [(List.mem_filter.mp hm).1]
  simp only [layout_row]
  rw [if_neg (by simp [List.isEmpty_iff, hne, hT])]
  rw [if_neg hrs]
  split
  · rw [List.filter_cons, hrest]
    split <;> simp
  · rw [hrest]
    simp

theorem pooled_plus_visible (items : List FileInfo) (w : ℚ) :
    pooledSize items w
        + sumSizes (items.filter fun it =>
            decide (¬ w * it.size / sumSizes items < 1))
      = sumSizes items := by
  have h := sumSizes_filter_partition items
    (fun it => decide (w * it.size / sumSizes items < 1))
  rw [pooledSize]
  simp only [decide_not] at h ⊢
  exact h

/-- The size-3000 sibling of the C8 counterexample. -/
def b3000 : FileInfo := .mk "big3000" 3000 false [] 0

/-- The size-1997 sibling of the C8 counterexample. -/
def b1997 : FileInfo := .mk "mid1997" 1997 false [] 0

/-- A unit-size file of the C8 counterexample. -/
def tiny1 : FileInfo := .mk "one" 1 false [] 0

/-- C8 counterexample: the claim says the pooled bucket is "drawn as a
single aggregate rectangle when the pooled width is at least 1 unit".
Packing sizes [3000, 1997, 1, 1, 1] in a 1000x500 rectangle yields rows
[[3000], [1997, 1, 1, 1]]; in the second row each unit-size item's width
is 0.5, so the three pool into a bucket of combined width 3/2 ≥ 1 which
is assigned a rectangle — but `draw_rectangle` (src/sizegraph.py line
243) skips every rectangle of width < 2, so the bucket never reaches the
canvas: the drawn output holds only the two big siblings. -/
theorem C8_counterexample :
    layout_treemap [b3000, b1997, tiny1, tiny1, tiny1] 0 0 1000 500
      = [(b3000, ⟨0, 0, 1000, 300⟩),
         (smallFilesNode 3, ⟨0, 300, 3/2, 200⟩),
         (b1997, ⟨3/2, 300, 1997/2, 200⟩)] ∧
    (1 : ℚ) ≤ 3/2 ∧
    drawnRects
        (layout_treemap [b3000, b1997, tiny1, tiny1, tiny1] 0 0 1000 500)
      = [(b3000, ⟨0, 0, 1000, 300⟩), (b1997, ⟨3/2, 300, 1997/2, 200⟩)] := by
  have h : layout_treemap [b3000, b1997, tiny1, tiny1, tiny1] 0 0 1000 500
      = [(b3000, ⟨0, 0, 1000, 300⟩),
         (smallFilesNode 3, ⟨0, 300, 3/2, 200⟩),
         (b1997, ⟨3/2, 300, 1997/2, 200⟩)] := by
    norm_num [b3000, b1997, tiny1, layout_treemap, pack, worst_ratio,
      maxRatioLoop, layout_row, layoutRows, placeVisibles, sumSizes,
      smallFilesNode, FileInfo.size, List.filter, WithTop.coe_lt_coe,
      -WithTop.coe_ofNat]
  refine ⟨h, by norm_num, ?_⟩
  rw [h]
  norm_num [drawnRects, drawable, List.filter]

/-- C8 as amended: within a laid-out row, every item whose computed width
`width * item.size / row_sum` falls below 1 display unit is pooled rather
than emitted individually — each emitted rectangle is either the single
synthetic "Small Files" bucket carrying exactly the pooled total or a
real item of width at least 1 (first conjunct); at most one emitted
rectangle is synthetic (second conjunct); and the pooled sizes together
with the visible sizes still account for the row's whole total, so
nothing stops counting toward the parent (third conjunct).  The bucket is
*assigned* a rectangle when the pooled width is at least 1 unit, but
`draw_rectangle` additionally skips anything narrower or shorter than 2
units, so it reaches the canvas only at 2 or more (the counterexample).
The spec's 990-plus-fifty-0.2 example in a 1000-unit-wide rectangle
produces at most one pooled rectangle — in fact none, because the fifty
tiny siblings end up in their own row where each is 20 units wide — and
no sub-unit sliver is emitted at all (fourth and fifth conjuncts). -/
theorem C8_small_pooling_amended (items : List FileInfo) (x y w h T : ℚ)
    (hne : items ≠ []) (hT : T ≠ 0) (hrs : sumSizes items ≠ 0) :
    (∀ pr ∈ (layout_row items x y w h T).2,
      pr.1 = smallFilesNode (pooledSize items w) ∨
      (pr.1 ∈ items ∧ 1 ≤ w * pr.1.size / sumSizes items)) ∧
    ((layout_row items x y w h T).2.filter
        (fun pr => decide (¬ pr.1 ∈ items))).length ≤ 1 ∧
    pooledSize items w
        + sumSizes (items.filter fun it =>
            decide (¬ w * it.size / sumSizes items < 1))
      = sumSizes items ∧
    ((layout_treemap items990 0 0 1000 500).filter
        (fun pr => decide (¬ pr.1 ∈ items990))).length ≤ 1 ∧
    (∀ pr ∈ layout_treemap items990 0 0 1000 500, 1 ≤ pr.2.w) :=
  ⟨layout_row_mem_char items x y w h T hne hT hrs,
    layout_row_bucket_count items x y w h T hne hT hrs,
    pooled_plus_visible items w, items990_bucket_count, items990_no_slivers⟩

/-- Witness for the amended C8 at the single-item row [b990]. -/
theorem C8_small_pooling_amended_witness :
    (([b990] : List FileInfo) ≠ [] ∧ (1000 : ℚ) ≠ 0 ∧
      sumSizes [b990] ≠ 0) ∧
    ((∀ pr ∈ (layout_row [b990] 0 0 1000 500 1000).2,
      pr.1 = smallFilesNode (pooledSize [b990] 1000) ∨
      (pr.1 ∈ [b990] ∧ 1 ≤ 1000 * pr.1.size / sumSizes [b990])) ∧
    ((layout_row [b990] 0 0 1000 500 1000).2.filter
        (fun pr => decide (¬ pr.1 ∈ [b990]))).length ≤ 1 ∧
    pooledSize [b990] 1000
        + sumSizes ([b990].filter fun it =>
            decide (¬ 1000 * it.size / sumSizes [b990] < 1))
      = sumSizes [b990] ∧
    ((layout_treemap items990 0 0 1000 500).filter
        (fun pr => decide (¬ pr.1 ∈ items990))).length ≤ 1 ∧
    (∀ pr ∈ layout_treemap items990 0 0 1000 500, 1 ≤ pr.2.w)) :=
  ⟨⟨by simp, by norm_num, by norm_num [sumSizes, b990, FileInfo.size]⟩,
    C8_small_pooling_amended [b990] 0 0 1000 500 1000 (by simp)
      (by norm_num) (by norm_num [sumSizes, b990, FileInfo.size])⟩

/-- Checked division: `none` exactly when Python float/int division would
raise `ZeroDivisionError`. -/
def divE (a b : ℚ) : Option ℚ := if b = 0 then none else some (a / b)

theorem divE_eq {b : ℚ} (hb : b ≠ 0) (a : ℚ) : divE a b = some (a / b) := by
  simp [divE, hb]

theorem divE_isSome {b : ℚ} (hb : b ≠ 0) (a : ℚ) :
    (divE a b).isSome = true := by
  simp [divE, hb]

/-- `worst_ratio`'s inner loop with every division checked. -/
def maxRatioLoopE (row : List FileInfo) (row_width row_sum row_height : ℚ) :
    Option ℚ :=
  match row with
  | [] => some 0
  | it :: rest =>
    if it.size = 0 then maxRatioLoopE rest row_width row_sum row_height
    else do
      let iw ← divE (row_width * it.size) row_sum
      if iw = 0 then maxRatioLoopE rest row_width row_sum row_height
      else do
        let r1 ← divE iw row_height
        let r2 ← divE row_height iw
        let m ← maxRatioLoopE rest row_width row_sum row_height
        pure (max (max r1 r2) m)

/-- v1 `worst_ratio` with every division checked. -/
def worstRatioE (row : List FileInfo) (width height total_size : ℚ) :
    Option (WithTop ℚ) :=
  if row.isEmpty ∨ total_size = 0 then some ⊤
  else
    let row_sum := sumSizes row
    if row_sum = 0 then some ⊤
    else do
      let rw ← divE (width * row_sum) total_size
      let m ← maxRatioLoopE row rw row_sum height
      pure (if m > 0 then (m : WithTop ℚ) else ⊤)

/-- v1 `layout_row` with every division checked: it divides only by
`total_size` and `row_sum`, both guarded by the early returns
(src/sizegraph.py lines 301-306). -/
def layoutRowE (items : List FileInfo) (x y width height total_size : ℚ) :
    Option (ℚ × List (FileInfo × Rect)) :=
  if items.isEmpty ∨ total_size = 0 then some (y, [])
  else
    let row_sum := sumSizes items
    if row_sum = 0 then some (y, [])
    else do
      let _ ← divE (height * row_sum) total_size
      let _ ← items.mapM fun it => divE (width * it.size) row_sum
      let _ ← divE (width * sumSizes (items.filter fun it =>
          decide (width * it.size / row_sum < 1))) row_sum
      pure (layout_row items x y width height total_size)

theorem maxRatioLoopE_isSome :
    ∀ (row : List FileInfo) (rw rs rh : ℚ), rs ≠ 0 → rh ≠ 0 →
      (maxRatioLoopE row rw rs rh).isSome = true
  | [], rw, rs, rh, hrs, hrh => by simp [maxRatioLoopE]
  | it :: rest, rw, rs, rh, hrs, hrh => by
    have ih := maxRatioLoopE_isSome rest rw rs rh hrs hrh
    simp only [maxRatioLoopE]
    split
    · exact ih
    · rw [divE_eq hrs]
      simp only [Option.bind_eq_bind, Option.some_bind]
      split
      · exact ih
      · next hiw =>
        rw [divE_eq hrh, divE_eq hiw]
        simp only [Option.bind_eq_bind, Option.some_bind]
        obtain ⟨m, hm⟩ := Option.isSome_iff_exists.mp ih
        rw [hm]
        simp

theorem worstRatioE_isSome (row : List FileInfo)
    (width height total_size : ℚ) (hh : height ≠ 0) :
    (worstRatioE row width height total_size).isSome = true := by
  simp only [worstRatioE]
  split
  · simp
  · next hguard =>
    push_neg at hguard
    split
    · simp
    · next hrs =>
      rw [divE_eq hguard.2]
      simp only [Option.bind_eq_bind, Option.some_bind]
      obtain ⟨m, hm⟩ := Option.isSome_iff_exists.mp
        (maxRatioLoopE_isSome row _ (sumSizes row) height hrs hh)
      rw [hm]
      simp

theorem mapM_loop_isSome {α β : Type} (f : α → Option β) :
    ∀ (l : List α) (acc : List β), (∀ a ∈ l, (f a).isSome = true) →
      (List.mapM.loop f l acc).isSome = true
  | [], acc, _ => by simp [List.mapM.loop]
  | a :: t, acc, hf => by
    simp only [List.mapM.loop]
    obtain ⟨b, hb⟩ := Option.isSome_iff_exists.mp
      (hf a (List.mem_cons_self _ _))
    rw [hb]
    simp only [Option.bind_eq_bind, Option.some_bind]
    exact mapM_loop_isSome f t (b :: acc)
      (fun c hc => hf c (List.mem_cons_of_mem _ hc))

theorem layoutRowE_isSome (items : List FileInfo)
    (x y width height total_size : ℚ) :
    (layoutRowE items x y width height total_size).isSome = true := by
  simp only [layoutRowE]
  split
  · simp
  · next hguard =>
    push_neg at hguard
    split
    · simp
    · next hrs =>
      rw [divE_eq hguard.2]
      simp only [Option.bind_eq_bind, Option.some_bind]
      obtain ⟨ws, hws⟩ := Option.isSome_iff_exists.mp
        (mapM_loop_isSome (fun it => divE (width * it.size) (sumSizes items))
          items [] (fun a _ => divE_isSome hrs _))
      rw [List.mapM, hws]
      simp only [Option.bind_eq_bind, Option.some_bind]
      rw [divE_eq hrs]
      simp

/-- The `width > height` branch of v2 `_layout_children` with the
division `child.size / total_size` (line 197) checked. -/
def slicesHE (children : List FileInfo)
    (x_offset y width height total_size : ℚ) :
    Option (List (FileInfo × Rect)) :=
  match children with
  | [] => some []
  | c :: cs => do
    let q ← divE c.size total_size
    let rest ← slicesHE cs (x_offset + width * q) y width height total_size
    pure ((c, ⟨x_offset, y, width * q, height⟩) :: rest)

/-- The `else` branch of v2 `_layout_children` with the division
`child.size / total_size` (line 204) checked. -/
def slicesVE (children : List FileInfo)
    (x y_offset width height total_size : ℚ) :
    Option (List (FileInfo × Rect)) :=
  match children with
  | [] => some []
  | c :: cs => do
    let q ← divE c.size total_size
    let rest ← slicesVE cs x (y_offset + height * q) width height total_size
    pure ((c, ⟨x, y_offset, width, height * q⟩) :: rest)

/-- v2 `_layout_children` with its divisions checked: `total_size` is the
raw `sum(child.size for child in dir_item.children)` with no zero guard
(src/sizegraphv2.py line 192). -/
def layout_childrenE (dir_item : FileInfo) (rect : Rect) :
    Option (List (FileInfo × Rect)) :=
  if dir_item.children.isEmpty then some []
  else if rect.w > rect.h then
    slicesHE dir_item.children rect.x rect.y rect.w rect.h
      (sumSizes dir_item.children)
  else
    slicesVE dir_item.children rect.x rect.y rect.w rect.h
      (sumSizes dir_item.children)

/-- One level of v2 `_draw_item` (src/sizegraphv2.py lines 140-164) with
checked arithmetic: nothing for a sub-unit rectangle (lines 141-142), the
children slices for a directory (line 164), the item's own rectangle for
a file. -/
def draw_itemE (item : FileInfo) (rect : Rect) :
    Option (List (FileInfo × Rect)) :=
  if rect.w < 1 ∨ rect.h < 1 then some []
  else if item.is_dir then layout_childrenE item rect
  else some [(item, rect)]

theorem slicesHE_isSome :
    ∀ (children : List FileInfo) (x y w h T : ℚ), T ≠ 0 →
      (slicesHE children x y w h T).isSome = true
  | [], _, _, _, _, _, _ => by simp [slicesHE]
  | c :: cs, x, y, w, h, T, hT => by
    simp only [slicesHE]
    rw [divE_eq hT]
    simp only [Option.bind_eq_bind, Option.some_bind]
    obtain ⟨rest, hrest⟩ := Option.isSome_iff_exists.mp
      (slicesHE_isSome cs (x + w * (c.size / T)) y w h T hT)
    rw [hrest]
    simp

theorem slicesVE_isSome :
    ∀ (children : List FileInfo) (x y w h T : ℚ), T ≠ 0 →
      (slicesVE children x y w h T).isSome = true
  | [], _, _, _, _, _, _ => by simp [slicesVE]
  | c :: cs, x, y, w, h, T, hT => by
    simp only [slicesVE]
    rw [divE_eq hT]
    simp only [Option.bind_eq_bind, Option.some_bind]
    obtain ⟨rest, hrest⟩ := Option.isSome_iff_exists.mp
      (slicesVE_isSome cs x (y + h * (c.size / T)) w h T hT)
    rw [hrest]
    simp

theorem layout_childrenE_isSome (dir_item : FileInfo) (rect : Rect)
    (hT : sumSizes dir_item.children ≠ 0) :
    (layout_childrenE dir_item rect).isSome = true := by
  simp only [layout_childrenE]
  split
  · simp
  · split
    · exact slicesHE_isSome _ _ _ _ _ _ hT
    · exact slicesVE_isSome _ _ _ _ _ _ hT


theorem calc_pct_zero (t : FileInfo) (hwf : wellFormed t = true)
    (ht0 : ¬ t.size > 0) :
    ∀ n ∈ allNodes (calculate_percentages t), n.percentage = 0 := by
  intro n hn
  have h := calcPct_nodes t.size t hwf n
    (by simpa [calculate_percentages] using hn)
  rw [h.1, if_neg ht0]

/-- C9 counterexample: the claim says arithmetic degeneracies — a sibling
group whose sizes sum to 0 among them — are handled by defined branches
and never raise a division by zero, for every input tree and rectangle.
v2 `_layout_children` divides by the unguarded children total
(src/sizegraphv2.py lines 192-204): drawing a root directory whose only
child has size 0 into a 100x100 viewport reaches
`child.size / total_size` with `total_size = 0` and raises
`ZeroDivisionError` (the checked evaluation is `none`); likewise v1
`worst_ratio` divides by an unguarded `row_height` (line 293), which is
the raw rectangle height: a zero-height rectangle with a positive-size
row raises. -/
theorem C9_counterexample :
    draw_itemE (.mk "root" 0 true [.mk "a" 0 false [] 0] 0)
      ⟨0, 0, 100, 100⟩ = none ∧
    worstRatioE [g50] 100 0 151 = none := by
  constructor
  · norm_num [draw_itemE, layout_childrenE, slicesVE, slicesHE, divE,
      sumSizes, FileInfo.size, FileInfo.children, FileInfo.is_dir]
  · norm_num [worstRatioE, maxRatioLoopE, divE, sumSizes, g50,
      FileInfo.size]

/-- C9 as amended: the degeneracies that are guarded never raise — every
division in v1 `layout_row` is by the early-returned `total_size` or
`row_sum` (first conjunct, with no hypothesis at all), every division in
v1 `worst_ratio` is defined once the rectangle height is nonzero (second
conjunct), v2 `_layout_children` divides safely whenever the children's
sizes do not sum to 0 (third conjunct), and a root of non-positive size
gives every node percentage 0 through `calculate_percentages`' defined
branch (fourth conjunct).  But the unguarded cases do raise
`ZeroDivisionError`: v2 on a zero-sum sibling group and v1 `worst_ratio`
on a zero-height rectangle (the counterexample). -/
theorem C9_degeneracy_amended (items row : List FileInfo)
    (x y w h T : ℚ) (d : FileInfo) (r : Rect) (t n : FileInfo)
    (hh : h ≠ 0) (hd : sumSizes d.children ≠ 0)
    (hwf : wellFormed t = true) (ht0 : ¬ t.size > 0)
    (hn : n ∈ allNodes (calculate_percentages t)) :
    (layoutRowE items x y w h T).isSome = true ∧
    (worstRatioE row w h T).isSome = true ∧
    (layout_childrenE d r).isSome = true ∧
    n.percentage = 0 :=
  ⟨layoutRowE_isSome items x y w h T, worstRatioE_isSome row w h T hh,
    layout_childrenE_isSome d r hd, calc_pct_zero t hwf ht0 n hn⟩

/-- A zero-size empty directory, the degenerate root of the C9
witness. -/
def emptyDirZero : FileInfo := .mk "empty" 0 true [] 0

/-- Witness for the amended C9 at concrete inputs. -/
theorem C9_degeneracy_amended_witness :
    ((50 : ℚ) ≠ 0 ∧ sumSizes dirD.children ≠ 0 ∧
      wellFormed emptyDirZero = true ∧ ¬ emptyDirZero.size > 0 ∧
      emptyDirZero ∈ allNodes (calculate_percentages emptyDirZero)) ∧
    ((layoutRowE [itemA60] 0 0 100 50 100).isSome = true ∧
      (worstRatioE [g50] 100 50 100).isSome = true ∧
      (layout_childrenE dirD ⟨0, 0, 10, 10⟩).isSome = true ∧
      emptyDirZero.percentage = 0) := by
  have h1 : (50 : ℚ) ≠ 0 := by norm_num
  have h2 : sumSizes dirD.children ≠ 0 := by
    norm_num [dirD, fiA, fiB, sumSizes, FileInfo.children, FileInfo.size]
  have h3 : wellFormed emptyDirZero = true := by
    norm_num [emptyDirZero, wellFormed, wellFormedList]
  have h4 : ¬ emptyDirZero.size > 0 := by
    norm_num [emptyDirZero, FileInfo.size]
  have h5 : emptyDirZero ∈ allNodes (calculate_percentages emptyDirZero) := by
    norm_num [emptyDirZero, calculate_percentages, calc_percentage,
      calcPctList, allNodes, allNodesList, FileInfo.size]
  exact ⟨⟨h1, h2, h3, h4, h5⟩,
    C9_degeneracy_amended [itemA60] [g50] 0 0 100 50 100 dirD ⟨0, 0, 10, 10⟩
      emptyDirZero emptyDirZero h1 h2 h3 h4 h5⟩

/-- Two rectangles do not overlap: they are separated along one axis (a
shared edge is allowed). -/
def Rect.DisjointR (a b : Rect) : Prop :=
  a.x + a.w ≤ b.x ∨ b.x + b.w ≤ a.x ∨ a.y + a.h ≤ b.y ∨ b.y + b.h ≤ a.y

/-- Total area of a list of assigned rectangles. -/
def rectsArea (l : List (FileInfo × Rect)) : ℚ :=
  (l.map fun pr => pr.2.area).sum

theorem rectsArea_append (a b : List (FileInfo × Rect)) :
    rectsArea (a ++ b) = rectsArea a + rectsArea b := by
  simp [rectsArea]

theorem placeVisibles_x_lb :
    ∀ (vs : List FileInfo) (xpos y w rs rh : ℚ),
      (∀ it ∈ vs, 0 ≤ it.size) → 0 ≤ w → 0 < rs →
      ∀ pr ∈ placeVisibles vs xpos y w rs rh, xpos ≤ pr.2.x
  | [], _, _, _, _, _, _, _, _, pr, hpr => by simp [placeVisibles] at hpr
  | it :: rest, xpos, y, w, rs, rh, hnn, hw, hrs, pr, hpr => by
    have hiw : 0 ≤ w * it.size / rs :=
      div_nonneg (mul_nonneg hw (hnn it (List.mem_cons_self _ _)))
        (le_of_lt hrs)
    simp only [placeVisibles, List.mem_cons] at hpr
    rcases hpr with rfl | hpr
    · exact le_refl _
    · have := placeVisibles_x_lb rest (xpos + w * it.size / rs) y w rs rh
        (fun a ha => hnn a (List.mem_cons_of_mem _ ha)) hw hrs pr hpr
      linarith

theorem placeVisibles_pairwise :
    ∀ (vs : List FileInfo) (xpos y w rs rh : ℚ),
      (∀ it ∈ vs, 0 ≤ it.size) → 0 ≤ w → 0 < rs →
      List.Pairwise (fun p q => p.2.DisjointR q.2)
        (placeVisibles vs xpos y w rs rh)
  | [], _, _, _, _, _, _, _, _ => by simp [placeVisibles]
  | it :: rest, xpos, y, w, rs, rh, hnn, hw, hrs => by
    simp only [placeVisibles]
    refine List.Pairwise.cons ?_
      (placeVisibles_pairwise rest _ y w rs rh
        (fun a ha => hnn a (List.mem_cons_of_mem _ ha)) hw hrs)
    intro pr hpr
    left
    exact placeVisibles_x_lb rest _ y w rs rh
      (fun a ha => hnn a (List.mem_cons_of_mem _ ha)) hw hrs pr hpr

theorem sumSizes_nonneg_of (l : List FileInfo)
    (h : ∀ it ∈ l, 0 ≤ it.size) : 0 ≤ sumSizes l := by
  induction l with
  | nil => simp [sumSizes]
  | cons c cs ih =>
    simp only [sumSizes]
    have h1 := h c (List.mem_cons_self _ _)
    have h2 := ih (fun a ha => h a (List.mem_cons_of_mem _ ha))
    linarith

theorem layout_row_rect_fields (items : List FileInfo) (x y w h T : ℚ) :
    ∀ pr ∈ (layout_row items x y w h T).2,
      pr.2.y = y ∧ pr.2.h = h * sumSizes items / T ∧
      (layout_row items x y w h T).1 = y + h * sumSizes items / T := by
  intro pr hpr
  simp only [layout_row] at hpr
  split at hpr
  · simp at hpr
  · next hg1 =>
    split at hpr
    · simp at hpr
    · next hrs =>
      have hfst : (layout_row items x y w h T).1
          = y + h * sumSizes items / T := by
        simp only [layout_row]
        rw [if_neg hg1, if_neg hrs]
        split <;> rfl
      split at hpr
      · rcases List.mem_cons.mp hpr with heq | hpr
        · rw [heq]
          exact ⟨rfl, rfl, hfst⟩
        · have hs := placeVisibles_shape _ _ _ _ _ _ pr hpr
          exact ⟨hs.2.2, hs.2.1, hfst⟩
      · have hs := placeVisibles_shape _ _ _ _ _ _ pr hpr
        exact ⟨hs.2.2, hs.2.1, hfst⟩

theorem layout_row_y_le (items : List FileInfo) (x y w h T : ℚ)
    (hnn : ∀ it ∈ items, 0 ≤ it.size) (hh : 0 ≤ h) (hT : 0 < T) :
    y ≤ (layout_row items x y w h T).1 := by
  have hrh : 0 ≤ h * sumSizes items / T :=
    div_nonneg (mul_nonneg hh (sumSizes_nonneg_of items hnn)) (le_of_lt hT)
  simp only [layout_row]
  split
  · exact le_refl y
  · split
    · exact le_refl y
    · split <;> · simp only []; linarith

theorem layout_row_pairwise (items : List FileInfo) (x y w h T : ℚ)
    (hnn : ∀ it ∈ items, 0 ≤ it.size) (hw : 0 ≤ w) :
    List.Pairwise (fun p q => p.2.DisjointR q.2)
      (layout_row items x y w h T).2 := by
  simp only [layout_row]
  split
  · simp
  · split
    · simp
    · next hrs =>
      have hrspos : 0 < sumSizes items :=
        lt_of_le_of_ne (sumSizes_nonneg_of items hnn) (Ne.symm hrs)
      have hvnn : ∀ it ∈ (items.filter fun it =>
          decide (¬ w * it.size / sumSizes items < 1)), 0 ≤ it.size :=
        fun a ha => hnn a (List.mem_filter.mp ha).1
      split
      · refine List.Pairwise.cons ?_
          (placeVisibles_pairwise _ _ _ _ _ _ hvnn hw hrspos)
        intro pr hpr
        left
        exact placeVisibles_x_lb _ _ _ _ _ _ hvnn hw hrspos pr hpr
      · exact placeVisibles_pairwise _ _ _ _ _ _ hvnn hw hrspos

theorem layoutRows_y_lb :
    ∀ (rows : List (List FileInfo)) (x y w h T : ℚ),
      (∀ row ∈ rows, ∀ it ∈ row, 0 ≤ it.size) → 0 ≤ h → 0 < T →
      ∀ pr ∈ layoutRows rows x y w h T, y ≤ pr.2.y
  | [], _, _, _, _, _, _, _, _, pr, hpr => by simp [layoutRows] at hpr
  | row :: rest, x, y, w, h, T, hnn, hh, hT, pr, hpr => by
    simp only [layoutRows, List.mem_append] at hpr
    rcases hpr with hpr | hpr
    · rw [(layout_row_rect_fields row x y w h T pr hpr).1]
    · have hy1 := layout_row_y_le row x y w h T
        (hnn row (List.mem_cons_self _ _)) hh hT
      have := layoutRows_y_lb rest x _ w h T
        (fun r hr => hnn r (List.mem_cons_of_mem _ hr)) hh hT pr hpr
      linarith

theorem layoutRows_pairwise :
    ∀ (rows : List (List FileInfo)) (x y w h T : ℚ),
      (∀ row ∈ rows, ∀ it ∈ row, 0 ≤ it.size) → 0 ≤ w → 0 ≤ h → 0 < T →
      List.Pairwise (fun p q => p.2.DisjointR q.2)
        (layoutRows rows x y w h T)
  | [], _, _, _, _, _, _, _, _, _ => by simp [layoutRows]
  | row :: rest, x, y, w, h, T, hnn, hw, hh, hT => by
    simp only [layoutRows]
    rw [List.pairwise_append]
    refine ⟨layout_row_pairwise row x y w h T
        (hnn row (List.mem_cons_self _ _)) hw,
      layoutRows_pairwise rest x _ w h T
        (fun r hr => hnn r (List.mem_cons_of_mem _ hr)) hw hh hT, ?_⟩
    intro p hp q hq
    have hf := layout_row_rect_fields row x y w h T p hp
    have hlb := layoutRows_y_lb rest x _ w h T
      (fun r hr => hnn r (List.mem_cons_of_mem _ hr)) hh hT q hq
    right; right; left
    rw [hf.1, hf.2.1]
    rw [hf.2.2] at hlb
    linarith

theorem rectsArea_cons (p : FileInfo × Rect) (l : List (FileInfo × Rect)) :
    rectsArea (p :: l) = p.2.area + rectsArea l := by
  simp [rectsArea]

theorem placeVisibles_area :
    ∀ (vs : List FileInfo) (xpos y w rs rh : ℚ),
      rectsArea (placeVisibles vs xpos y w rs rh)
        = w * sumSizes vs / rs * rh
  | [], _, _, w, rs, rh => by simp [placeVisibles, rectsArea, sumSizes]
  | it :: rest, xpos, y, w, rs, rh => by
    rw [placeVisibles, rectsArea_cons,
      placeVisibles_area rest (xpos + w * it.size / rs) y w rs rh]
    simp only [Rect.area, sumSizes]
    ring

theorem layout_row_area_bounds (items : List FileInfo) (x y w h T : ℚ)
    (hnn : ∀ it ∈ items, 0 ≤ it.size) (hw : 0 ≤ w) (hh : 0 ≤ h)
    (hT : 0 < T) :
    (w - 1) * (h * sumSizes items / T)
        ≤ rectsArea (layout_row items x y w h T).2 ∧
    rectsArea (layout_row items x y w h T).2
        ≤ w * (h * sumSizes items / T) := by
  simp only [layout_row]
  split
  · next hg =>
    rcases hg with hg | hg
    · have hitems : items = [] := List.isEmpty_iff.mp hg
      subst hitems
      simp [rectsArea, sumSizes]
    · exact absurd hg (ne_of_gt hT)
  · split
    · next hrs =>
      rw [hrs]
      simp [rectsArea]
    · next hrs =>
      have hrspos : 0 < sumSizes items :=
        lt_of_le_of_ne (sumSizes_nonneg_of items hnn) (Ne.symm hrs)
      have hrh : 0 ≤ h * sumSizes items / T :=
        div_nonneg (mul_nonneg hh (le_of_lt hrspos)) (le_of_lt hT)
      have hpart : sumSizes (items.filter fun it =>
            decide (w * it.size / sumSizes items < 1))
          + sumSizes (items.filter fun it =>
              decide (¬ w * it.size / sumSizes items < 1))
          = sumSizes items := by
        have h2 := sumSizes_filter_partition items
          (fun it => decide (w * it.size / sumSizes items < 1))
        simp only [← decide_not] at h2
        exact h2
      have hssnn : 0 ≤ sumSizes (items.filter fun it =>
          decide (w * it.size / sumSizes items < 1)) :=
        sumSizes_nonneg_of _ (fun a ha => hnn a (List.mem_filter.mp ha).1)
      have hsvnn : 0 ≤ sumSizes (items.filter fun it =>
          decide (¬ w * it.size / sumSizes items < 1)) :=
        sumSizes_nonneg_of _ (fun a ha => hnn a (List.mem_filter.mp ha).1)
      split
      · next hbkt =>
        rw [rectsArea_cons, placeVisibles_area]
        simp only [Rect.area]
        have harea : w * sumSizes (items.filter fun it =>
              decide (w * it.size / sumSizes items < 1)) / sumSizes items
                * (h * sumSizes items / T)
              + w * sumSizes (items.filter fun it =>
                  decide (¬ w * it.size / sumSizes items < 1)) / sumSizes items
                * (h * sumSizes items / T)
            = w * (h * sumSizes items / T) := by
          rw [div_mul_eq_mul_div, div_mul_eq_mul_div, div_add_div_same,
            ← add_mul, ← mul_add, hpart]
          rw [mul_comm w (sumSizes items), mul_assoc,
            mul_div_assoc (sumSizes items)]
          rw [mul_comm (sumSizes items) (w * (h * sumSizes items / T) / sumSizes items)]
          rw [div_mul_cancel₀ _ hrs]
        constructor
        · rw [harea]
          nlinarith [hrh]
        · rw [harea]
      · next hbkt =>
        rw [placeVisibles_area]
        push_neg at hbkt
        have hcomb : w * sumSizes (items.filter fun it =>
            decide (w * it.size / sumSizes items < 1)) / sumSizes items ≤ 1 := by
          rcases eq_or_lt_of_le hssnn with heq | hpos
          · rw [← heq]
            simp
          · exact le_of_lt (hbkt hpos)
        have hsv : sumSizes (items.filter fun it =>
              decide (¬ w * it.size / sumSizes items < 1))
            = sumSizes items - sumSizes (items.filter fun it =>
                decide (w * it.size / sumSizes items < 1)) := by
          linarith [hpart]
        rw [hsv]
        have hsplit : w * (sumSizes items - sumSizes (items.filter fun it =>
              decide (w * it.size / sumSizes items < 1))) / sumSizes items
            = w - w * sumSizes (items.filter fun it =>
                decide (w * it.size / sumSizes items < 1)) / sumSizes items := by
          field_simp
          ring
        rw [hsplit]
        have hk : 0 ≤ w * sumSizes (items.filter fun it =>
            decide (w * it.size / sumSizes items < 1)) / sumSizes items :=
          div_nonneg (mul_nonneg hw hssnn) (le_of_lt hrspos)
        constructor
        · nlinarith [hcomb, hrh]
        · nlinarith [hk, hrh]

theorem layoutRows_area_bounds :
    ∀ (rows : List (List FileInfo)) (x y w h T : ℚ),
      (∀ row ∈ rows, ∀ it ∈ row, 0 ≤ it.size) → 0 ≤ w → 0 ≤ h → 0 < T →
      (w - 1) * (h * sumSizes rows.flatten / T)
          ≤ rectsArea (layoutRows rows x y w h T) ∧
      rectsArea (layoutRows rows x y w h T)
          ≤ w * (h * sumSizes rows.flatten / T)
  | [], _, _, w, h, T, _, _, _, _ => by
    simp [layoutRows, rectsArea, sumSizes]
  | row :: rest, x, y, w, h, T, hnn, hw, hh, hT => by
    have h1 := layout_row_area_bounds row x y w h T
      (hnn row (List.mem_cons_self _ _)) hw hh hT
    have h2 := layoutRows_area_bounds rest x
      (layout_row row x y w h T).1 w h T
      (fun r hr => hnn r (List.mem_cons_of_mem _ hr)) hw hh hT
    simp only [layoutRows, List.flatten_cons, rectsArea_append,
      sumSizes_append]
    constructor
    · have : (w - 1) * (h * (sumSizes row + sumSizes rest.flatten) / T)
          = (w - 1) * (h * sumSizes row / T)
            + (w - 1) * (h * sumSizes rest.flatten / T) := by
        ring
      rw [this]
      linarith [h1.1, h2.1]
    · have : w * (h * (sumSizes row + sumSizes rest.flatten) / T)
          = w * (h * sumSizes row / T)
            + w * (h * sumSizes rest.flatten / T) := by
        ring
      rw [this]
      linarith [h1.2, h2.2]

theorem layout_treemap_pairwise (items : List FileInfo) (x y w h : ℚ)
    (hnn : ∀ it ∈ items, 0 ≤ it.size) (hw : 0 ≤ w) (hh : 0 ≤ h)
    (htot : 0 < sumSizes items) :
    List.Pairwise (fun p q => p.2.DisjointR q.2)
      (layout_treemap items x y w h) := by
  simp only [layout_treemap]
  split
  · simp
  · split
    · simp
    · next hts =>
      refine layoutRows_pairwise _ x y w h _ ?_ hw hh htot
      intro row hrow it hit
      have : it ∈ (pack items [] ⊤ w h (sumSizes items)).flatten :=
        List.mem_flatten.mpr ⟨row, hrow, hit⟩
      rw [pack_flatten, List.nil_append] at this
      exact hnn it this

theorem layout_treemap_area_bounds (items : List FileInfo) (x y w h : ℚ)
    (hnn : ∀ it ∈ items, 0 ≤ it.size) (hw : 0 ≤ w) (hh : 0 ≤ h)
    (htot : 0 < sumSizes items) :
    (w - 1) * h ≤ rectsArea (layout_treemap items x y w h) ∧
    rectsArea (layout_treemap items x y w h) ≤ w * h := by
  simp only [layout_treemap]
  split
  · next hg =>
    have : items = [] := List.isEmpty_iff.mp hg
    subst this
    simp [sumSizes] at htot
  · split
    · next hts => rw [hts] at htot; exact absurd htot (lt_irrefl 0)
    · next hts =>
      have hb := layoutRows_area_bounds (pack items [] ⊤ w h (sumSizes items))
        x y w h (sumSizes items)
        (fun row hrow it hit => hnn it (by
          have : it ∈ (pack items [] ⊤ w h (sumSizes items)).flatten :=
            List.mem_flatten.mpr ⟨row, hrow, hit⟩
          rwa [pack_flatten, List.nil_append] at this)) hw hh htot
      rw [pack_flatten, List.nil_append] at hb
      rw [mul_div_assoc, div_self hts, mul_one] at hb
      exact hb

theorem slicesH_x_lb :
    ∀ (cs : List FileInfo) (xo y w h T : ℚ),
      (∀ c ∈ cs, 0 ≤ c.size) → 0 ≤ w → 0 < T →
      ∀ pr ∈ slicesH cs xo y w h T, xo ≤ pr.2.x
  | [], _, _, _, _, _, _, _, _, pr, hpr => by simp [slicesH] at hpr
  | c :: rest, xo, y, w, h, T, hnn, hw, hT, pr, hpr => by
    have hcw : 0 ≤ w * (c.size / T) :=
      mul_nonneg hw (div_nonneg (hnn c (List.mem_cons_self _ _)) (le_of_lt hT))
    simp only [slicesH, List.mem_cons] at hpr
    rcases hpr with rfl | hpr
    · exact le_refl _
    · have := slicesH_x_lb rest (xo + w * (c.size / T)) y w h T
        (fun a ha => hnn a (List.mem_cons_of_mem _ ha)) hw hT pr hpr
      linarith

theorem slicesH_pairwise :
    ∀ (cs : List FileInfo) (xo y w h T : ℚ),
      (∀ c ∈ cs, 0 ≤ c.size) → 0 ≤ w → 0 < T →
      List.Pairwise (fun p q => p.2.DisjointR q.2) (slicesH cs xo y w h T)
  | [], _, _, _, _, _, _, _, _ => by simp [slicesH]
  | c :: rest, xo, y, w, h, T, hnn, hw, hT => by
    simp only [slicesH]
    refine List.Pairwise.cons ?_
      (slicesH_pairwise rest _ y w h T
        (fun a ha => hnn a (List.mem_cons_of_mem _ ha)) hw hT)
    intro pr hpr
    left
    exact slicesH_x_lb rest _ y w h T
      (fun a ha => hnn a (List.mem_cons_of_mem _ ha)) hw hT pr hpr

theorem slicesH_area :
    ∀ (cs : List FileInfo) (xo y w h T : ℚ),
      rectsArea (slicesH cs xo y w h T) = w * (sumSizes cs / T) * h
  | [], _, _, w, h, T => by simp [slicesH, rectsArea, sumSizes]
  | c :: rest, xo, y, w, h, T => by
    rw [slicesH, rectsArea_cons,
      slicesH_area rest (xo + w * (c.size / T)) y w h T]
    simp only [Rect.area, sumSizes]
    ring

theorem slicesV_y_lb :
    ∀ (cs : List FileInfo) (x yo w h T : ℚ),
      (∀ c ∈ cs, 0 ≤ c.size) → 0 ≤ h → 0 < T →
      ∀ pr ∈ slicesV cs x yo w h T, yo ≤ pr.2.y
  | [], _, _, _, _, _, _, _, _, pr, hpr => by simp [slicesV] at hpr
  | c :: rest, x, yo, w, h, T, hnn, hh, hT, pr, hpr => by
    have hch : 0 ≤ h * (c.size / T) :=
      mul_nonneg hh (div_nonneg (hnn c (List.mem_cons_self _ _)) (le_of_lt hT))
    simp only [slicesV, List.mem_cons] at hpr
    rcases hpr with rfl | hpr
    · exact le_refl _
    · have := slicesV_y_lb rest x (yo + h * (c.size / T)) w h T
        (fun a ha => hnn a (List.mem_cons_of_mem _ ha)) hh hT pr hpr
      linarith

theorem slicesV_pairwise :
    ∀ (cs : List FileInfo) (x yo w h T : ℚ),
      (∀ c ∈ cs, 0 ≤ c.size) → 0 ≤ h → 0 < T →
      List.Pairwise (fun p q => p.2.DisjointR q.2) (slicesV cs x yo w h T)
  | [], _, _, _, _, _, _, _, _ => by simp [slicesV]
  | c :: rest, x, yo, w, h, T, hnn, hh, hT => by
    simp only [slicesV]
    refine List.Pairwise.cons ?_
      (slicesV_pairwise rest x _ w h T
        (fun a ha => hnn a (List.mem_cons_of_mem _ ha)) hh hT)
    intro pr hpr
    right; right; left
    exact slicesV_y_lb rest x _ w h T
      (fun a ha => hnn a (List.mem_cons_of_mem _ ha)) hh hT pr hpr

theorem slicesV_area :
    ∀ (cs : List FileInfo) (x yo w h T : ℚ),
      rectsArea (slicesV cs x yo w h T) = w * (h * (sumSizes cs / T))
  | [], _, _, w, h, T => by simp [slicesV, rectsArea, sumSizes]
  | c :: rest, x, yo, w, h, T => by
    rw [slicesV, rectsArea_cons,
      slicesV_area rest x (yo + h * (c.size / T)) w h T]
    simp only [Rect.area, sumSizes]
    ring

theorem layout_children_pairwise (d : FileInfo) (r : Rect)
    (hnn : ∀ c ∈ d.children, 0 ≤ c.size) (hw : 0 ≤ r.w) (hh : 0 ≤ r.h)
    (htot : 0 < sumSizes d.children) :
    List.Pairwise (fun p q => p.2.DisjointR q.2) (layout_children d r) := by
  simp only [layout_children]
  split
  · simp
  · split
    · exact slicesH_pairwise _ _ _ _ _ _ hnn hw htot
    · exact slicesV_pairwise _ _ _ _ _ _ hnn hh htot

theorem layout_children_area (d : FileInfo) (r : Rect)
    (htot : 0 < sumSizes d.children) :
    rectsArea (layout_children d r) = r.w * r.h := by
  simp only [layout_children]
  split
  · next hg =>
    rw [List.isEmpty_iff.mp hg] at htot
    simp [sumSizes] at htot
  · split
    · rw [slicesH_area, div_self (ne_of_gt htot), mul_one]
    · rw [slicesV_area, div_self (ne_of_gt htot), mul_one]

/-- C2: tiling and non-overlap of the rectangles assigned to one node's
children.  v1 (`layout_treemap` / `layout_row`): for nonnegative sizes
with a positive total in a rectangle of nonnegative extent, the assigned
rectangles (pooled bucket included) are pairwise non-overlapping, their
total area never exceeds the rectangle's, and the deficit is at most
`1 * h` — the area of a one-display-unit-wide strip, the most that
sub-unit small-item pruning can discard (v1 has no border inset).  v2
(`_layout_children`): the children's slices are pairwise non-overlapping
and tile the rectangle's area exactly. -/
theorem C2_tiling (items : List FileInfo) (x y w h : ℚ) (d : FileInfo)
    (r : Rect)
    (hnn : ∀ it ∈ items, 0 ≤ it.size) (hw : 0 ≤ w) (hh : 0 ≤ h)
    (htot : 0 < sumSizes items)
    (hnn2 : ∀ c ∈ d.children, 0 ≤ c.size) (hrw : 0 ≤ r.w) (hrh : 0 ≤ r.h)
    (htot2 : 0 < sumSizes d.children) :
    List.Pairwise (fun p q => p.2.DisjointR q.2)
      (layout_treemap items x y w h) ∧
    (w - 1) * h ≤ rectsArea (layout_treemap items x y w h) ∧
    rectsArea (layout_treemap items x y w h) ≤ w * h ∧
    List.Pairwise (fun p q => p.2.DisjointR q.2) (layout_children d r) ∧
    rectsArea (layout_children d r) = r.w * r.h :=
  ⟨layout_treemap_pairwise items x y w h hnn hw hh htot,
    (layout_treemap_area_bounds items x y w h hnn hw hh htot).1,
    (layout_treemap_area_bounds items x y w h hnn hw hh htot).2,
    layout_children_pairwise d r hnn2 hrw hrh htot2,
    layout_children_area d r htot2⟩

/-- Witness for C2 on the 60/40 children in a 100x50 rectangle (both
versions). -/
theorem C2_tiling_witness :
    ((∀ it ∈ [itemA60, itemB40], 0 ≤ it.size) ∧ (0 : ℚ) ≤ 100 ∧
      (0 : ℚ) ≤ 50 ∧ 0 < sumSizes [itemA60, itemB40] ∧
      (∀ c ∈ (FileInfo.mk "d" 100 true [itemA60, itemB40] 0).children,
        0 ≤ c.size) ∧
      (0 : ℚ) ≤ (Rect.mk 0 0 100 50).w ∧ (0 : ℚ) ≤ (Rect.mk 0 0 100 50).h ∧
      0 < sumSizes (FileInfo.mk "d" 100 true [itemA60, itemB40] 0).children) ∧
    (List.Pairwise (fun p q => p.2.DisjointR q.2)
      (layout_treemap [itemA60, itemB40] 0 0 100 50) ∧
    ((100 : ℚ) - 1) * 50
        ≤ rectsArea (layout_treemap [itemA60, itemB40] 0 0 100 50) ∧
    rectsArea (layout_treemap [itemA60, itemB40] 0 0 100 50)
        ≤ 100 * 50 ∧
    List.Pairwise (fun p q => p.2.DisjointR q.2)
      (layout_children (.mk "d" 100 true [itemA60, itemB40] 0)
        ⟨0, 0, 100, 50⟩) ∧
    rectsArea (layout_children (.mk "d" 100 true [itemA60, itemB40] 0)
        ⟨0, 0, 100, 50⟩)
      = (Rect.mk 0 0 100 50).w * (Rect.mk 0 0 100 50).h) := by
  have h1 : ∀ it ∈ [itemA60, itemB40], 0 ≤ it.size := by
    intro it hit
    rcases List.mem_cons.mp hit with rfl | hit
    · norm_num [itemA60, FileInfo.size]
    · simp only [List.mem_singleton] at hit
      rw [hit]
      norm_num [itemB40, FileInfo.size]
  have h4 : 0 < sumSizes [itemA60, itemB40] := by
    norm_num [sumSizes, itemA60, itemB40, FileInfo.size]
  have h5 : ∀ c ∈ (FileInfo.mk "d" 100 true [itemA60, itemB40] 0).children,
      0 ≤ c.size := by
    simpa [FileInfo.children] using h1
  have h8 : 0 < sumSizes
      (FileInfo.mk "d" 100 true [itemA60, itemB40] 0).children := by
    simpa [FileInfo.children] using h4
  exact ⟨⟨h1, by norm_num, by norm_num, h4, h5, by norm_num, by norm_num, h8⟩,
    C2_tiling [itemA60, itemB40] 0 0 100 50
      (.mk "d" 100 true [itemA60, itemB40] 0) ⟨0, 0, 100, 50⟩
      h1 (by norm_num) (by norm_num) h4 h5 (by norm_num) (by norm_num) h8⟩
